import Mathlib

/-!
Gravity rule and instance transforms of the black-hole demos.

A shallow embedding of `src/main.c` and `src/instancing.c`, with two readings of
the C type `float`.

* Binary32 (`F32`, namespace `Binary32`): `float` is IEEE 754 binary32 with
  round to nearest, ties to even, signed zeros, infinities and NaN; every
  operator of the source is one rounded operation, in the order of the source
  (no fused multiply-add, no wider intermediate precision), and `sqrtf` is
  correctly rounded.  The gravity rule `ApplyGravity` is embedded in this
  reading, and the statements about arbitrary particles and attractors are made
  in it.
* Exact scalars (section `Scalars`): `float` is an arbitrary linearly ordered
  field and `sqrtf`, `sinf`, `cosf` (from `<math.h>`) and `PI` (from `raylib.h`)
  are arguments; what a theorem needs from them is an explicit hypothesis.
  Rounding, overflow and NaN do not exist in this reading.  It carries the
  statements whose inputs stay far from overflow and underflow (the start-up
  loops, the zero-distance guard, the frame property).
* The `raymath.h` helpers are written out from the body they have in raylib.
* `GetRandomValue` is an oracle: the integers it returns are arguments of the
  loop bodies and the theorems quantify over every value in the requested range.
-/

namespace BlackHole

/-! ## Data model (`raylib.h`, `main.c` lines 9-31) -/

/-- Modelled from the spec: `Vector3` of `raylib.h` (missing from src/), the
"3D vector" of the data model: three scalar components. -/
@[ext] structure Vector3 (F : Type) where
  x : F
  y : F
  z : F

/-- Modelled from the spec: `Matrix` of `raylib.h` (missing from src/), the
"4x4 affine matrix" of the data model.  Fields in the declaration order of
raylib: the first row is `m0 m4 m8 m12`, so `m12 m13 m14` is the translation. -/
@[ext] structure Matrix (F : Type) where
  m0 : F
  m4 : F
  m8 : F
  m12 : F
  m1 : F
  m5 : F
  m9 : F
  m13 : F
  m2 : F
  m6 : F
  m10 : F
  m14 : F
  m3 : F
  m7 : F
  m11 : F
  m15 : F

/-- The `Settings` struct, `main.c` lines 9-14. -/
structure Settings where
  show_wireframe : Bool
  show_grid : Bool
  show_help : Bool
  show_fps : Bool

/-- The `Particle` struct, `main.c` lines 16-21. -/
@[ext] structure Particle (F : Type) where
  position : Vector3 F
  radius : F
  velocity : Vector3 F
  mass : F

/-- The `Sphere` struct, `main.c` lines 23-27. -/
@[ext] structure Sphere (F : Type) where
  position : Vector3 F
  radius : F
  mass : F

/-- The macro `MAX_PARTICLES`, `main.c` line 29. -/
def MAX_PARTICLES : Nat := 100

/-- The macro `MAX_INSTANCES`, `instancing.c` line 12. -/
def MAX_INSTANCES : Nat := 100

/-! ## IEEE 754 binary32, the `float` of the two programs -/

/-- A binary32 datum: NaN, an infinity with its sign bit, or the finite number
`(-1)^s * m * 2^e`.  The operations below return finite numbers in canonical
form only: `m < 2^24`, `-149 ≤ e ≤ 104`, and `m < 2^23` only when `e = -149`
(subnormal numbers, and zero as `m = 0`). -/
inductive F32 where
  | nan : F32
  | inf (s : Bool) : F32
  | fin (s : Bool) (m : Nat) (e : Int) : F32
deriving DecidableEq

namespace F32

/-- With enough fuel, the position of the highest set bit of `n` (0 for `n < 2`). -/
def log2Fuel : Nat → Nat → Nat
  | 0, _ => 0
  | f + 1, n => if n < 2 then 0 else log2Fuel f (n / 2) + 1

/-- The floor of the binary logarithm of `n ≥ 1`. -/
def floorLog2 (n : Nat) : Nat := log2Fuel n n

/-- The floor of the binary logarithm of `n / d` (for `n / d ≥ 2^-64`, which
covers every quotient of two 24-bit significands). -/
def floorLog2Ratio (n d : Nat) : Int :=
  (floorLog2 (n * 2 ^ 64 / d) : Int) - 64

/-- The exponent of the binary32 nearest to `(n / d) * 2^k`: that of a 24-bit
significand, or `-149` in the subnormal range. -/
def roundExp (n d : Nat) (k : Int) : Int :=
  max (floorLog2Ratio n d + k - 23) (-149)

/-- The integer nearest to `(n / d) * 2^sh`, ties to the even one. -/
def roundSig (n d : Nat) (sh : Int) : Nat :=
  let num := if 0 ≤ sh then n * 2 ^ sh.toNat else n
  let den := if 0 ≤ sh then d else d * 2 ^ (-sh).toNat
  let q := num / den
  let r := num % den
  if den < 2 * r ∨ (2 * r = den ∧ q % 2 = 1) then q + 1 else q

/-- Round the positive number `(n / d) * 2^k` to the nearest binary32 significand
and exponent, ties to the even significand; a significand rounded up to `2^24`
is renormalised. -/
def roundCore (n d : Nat) (k : Int) : Nat × Int :=
  if roundSig n d (k - roundExp n d k) = 2 ^ 24 then (2 ^ 23, roundExp n d k + 1)
  else (roundSig n d (k - roundExp n d k), roundExp n d k)

/-- The binary32 nearest to `(-1)^s * (n / d) * 2^k`; beyond the largest finite
number the result is the infinity of that sign. -/
def roundPos (s : Bool) (n d : Nat) (k : Int) : F32 :=
  if 104 < (roundCore n d k).2 then inf s
  else fin s (roundCore n d k).1 (roundCore n d k).2

/-- The literal `0.0f`. -/
def zero : F32 := fin false 0 (-149)

/-- The literal `1.0f`. -/
def one : F32 := fin false (2 ^ 23) (-23)

/-- Unary minus. -/
def neg : F32 → F32
  | nan => nan
  | inf s => inf (!s)
  | fin s m e => fin (!s) m e

/-- The binary32 product. -/
def mul : F32 → F32 → F32
  | fin s1 m1 e1, fin s2 m2 e2 =>
    if m1 = 0 ∨ m2 = 0 then fin (xor s1 s2) 0 (-149)
    else roundPos (xor s1 s2) (m1 * m2) 1 (e1 + e2)
  | fin s1 m1 _, inf s2 => if m1 = 0 then nan else inf (xor s1 s2)
  | inf s1, fin s2 m2 _ => if m2 = 0 then nan else inf (xor s1 s2)
  | inf s1, inf s2 => inf (xor s1 s2)
  | _, _ => nan

/-- The binary32 quotient. -/
def div : F32 → F32 → F32
  | fin s1 m1 e1, fin s2 m2 e2 =>
    if m2 = 0 then (if m1 = 0 then nan else inf (xor s1 s2))
    else if m1 = 0 then fin (xor s1 s2) 0 (-149)
    else roundPos (xor s1 s2) m1 m2 (e1 - e2)
  | fin s1 _ _, inf s2 => fin (xor s1 s2) 0 (-149)
  | inf s1, fin s2 _ _ => inf (xor s1 s2)
  | _, _ => nan

/-- The binary32 sum. -/
def add : F32 → F32 → F32
  | fin s1 m1 e1, fin s2 m2 e2 =>
    let k := min e1 e2
    let a := m1 * 2 ^ (e1 - k).toNat
    let b := m2 * 2 ^ (e2 - k).toNat
    if s1 = s2 then
      (if a + b = 0 then fin s1 0 (-149) else roundPos s1 (a + b) 1 k)
    else if a = b then fin false 0 (-149)
    else if b < a then roundPos s1 (a - b) 1 k
    else roundPos s2 (b - a) 1 k
  | fin _ _ _, inf s2 => inf s2
  | inf s1, fin _ _ _ => inf s1
  | inf s1, inf s2 => if s1 = s2 then inf s1 else nan
  | _, _ => nan

/-- The binary32 difference. -/
def sub (a b : F32) : F32 := add a (neg b)

/-- Bit by bit, the largest `r = acc + (bits below b)` with `r * r ≤ M`. -/
def isqrtLoop (M : Nat) : Nat → Nat → Nat
  | 0, acc => acc
  | b + 1, acc =>
    isqrtLoop M b (if (acc + 2 ^ b) * (acc + 2 ^ b) ≤ M then acc + 2 ^ b else acc)

/-- The integer square root of `M < 2^128`. -/
def isqrt (M : Nat) : Nat := isqrtLoop M 64 0

/-- The function `sqrtf`: the significand is widened to at least 53 bits with an
even exponent, its integer square root taken, and a sticky bit appended when the
root is not exact. -/
def sqrt : F32 → F32
  | nan => nan
  | inf s => if s then nan else inf false
  | fin s m e =>
    if m = 0 then fin s 0 (-149)
    else if s then nan
    else
      let t : Int := if (e - 52) % 2 = 0 then 52 else 53
      let M := m * 2 ^ t.toNat
      let r := isqrt M
      let sticky := if r * r = M then 0 else 1
      roundPos false (2 * r + sticky) 1 ((e - t) / 2 - 1)

/-- The value of the finite number `(-1)^s * m * 2^e` times `2^149`, an integer
when `e ≥ -149`. -/
def intVal (s : Bool) (m : Nat) (e : Int) : Int :=
  if s then -((m * 2 ^ (e + 149).toNat : Nat) : Int) else ((m * 2 ^ (e + 149).toNat : Nat) : Int)

/-- The comparison `a < b` of C: false when either side is NaN. -/
def lt : F32 → F32 → Bool
  | fin s1 m1 e1, fin s2 m2 e2 => decide (intVal s1 m1 e1 < intVal s2 m2 e2)
  | fin _ _ _, inf t => !t
  | inf s, fin _ _ _ => s
  | inf s, inf t => s && !t
  | _, _ => false

/-- The comparison `a != b` of C: true when either side is NaN. -/
def ne : F32 → F32 → Bool
  | fin s1 m1 e1, fin s2 m2 e2 => decide (intVal s1 m1 e1 ≠ intVal s2 m2 e2)
  | inf s, inf t => s != t
  | _, _ => true

/-- The conversion `(float)i` of an `int`. -/
def ofInt (i : Int) : F32 :=
  if i = 0 then zero else roundPos (decide (i < 0)) i.natAbs 1 0

/-- The rational value of a finite number. -/
def toRat : F32 → Option ℚ
  | fin s m e => some ((if s then -1 else 1) * (m : ℚ) * (2 : ℚ) ^ e)
  | _ => none

/-- The number with the same sign and significand and the exponent raised by
`j`: the value times `2^j`.  Zero, the infinities and NaN stay. -/
def scaleExp (j : Int) : F32 → F32
  | fin s m e => if m = 0 then fin s m e else fin s m (e + j)
  | x => x

/-- The datum is NaN or carries the sign bit `s`. -/
def signOk (s : Bool) : F32 → Prop
  | nan => True
  | inf t => t = s
  | fin t _ _ => t = s

/-- A finite number in canonical form has exponent at least `-149`. -/
def expOk : F32 → Prop
  | fin _ _ e => -149 ≤ e
  | _ => True

/-- A nonzero finite number whose exponent lies in `[lo, hi]`. -/
def InRange (lo hi : Int) (x : F32) : Prop :=
  ∃ s m e, x = fin s m e ∧ m ≠ 0 ∧ lo ≤ e ∧ e ≤ hi

/-- A zero of either sign. -/
def IsZero (x : F32) : Prop := ∃ s e, x = fin s 0 e

/-- A number that is not NaN, has a clear sign bit and, when finite, an exponent
of at least `-149`. -/
def NonNeg (a : F32) : Prop := a ≠ nan ∧ signOk false a ∧ expOk a

end F32

/-! ## The gravity rule in binary32 -/

namespace Binary32

/-- The macro `GRAVITY_CONSTANT`, `main.c` line 30 (`1.0f`). -/
def GRAVITY_CONSTANT : F32 := F32.one

/-- Modelled from the spec: `Vector3Add` of `raymath.h` (missing from src/), in binary32. -/
def Vector3Add (v1 v2 : Vector3 F32) : Vector3 F32 :=
  ⟨F32.add v1.x v2.x, F32.add v1.y v2.y, F32.add v1.z v2.z⟩

/-- Modelled from the spec: `Vector3Subtract` of `raymath.h` (missing from src/), in binary32. -/
def Vector3Subtract (v1 v2 : Vector3 F32) : Vector3 F32 :=
  ⟨F32.sub v1.x v2.x, F32.sub v1.y v2.y, F32.sub v1.z v2.z⟩

/-- Modelled from the spec: `Vector3Scale` of `raymath.h` (missing from src/), in binary32. -/
def Vector3Scale (v : Vector3 F32) (scalar : F32) : Vector3 F32 :=
  ⟨F32.mul v.x scalar, F32.mul v.y scalar, F32.mul v.z scalar⟩

/-- Modelled from the spec: `Vector3DotProduct` of `raymath.h` (missing from src/), in binary32:
`v1.x*v2.x + v1.y*v2.y + v1.z*v2.z`, summed left to right. -/
def Vector3DotProduct (v1 v2 : Vector3 F32) : F32 :=
  F32.add (F32.add (F32.mul v1.x v2.x) (F32.mul v1.y v2.y)) (F32.mul v1.z v2.z)

/-- Modelled from the spec: `Vector3Length` of `raymath.h` (missing from src/), in binary32:
`sqrtf(v.x*v.x + v.y*v.y + v.z*v.z)`. -/
def Vector3Length (v : Vector3 F32) : F32 :=
  F32.sqrt (F32.add (F32.add (F32.mul v.x v.x) (F32.mul v.y v.y)) (F32.mul v.z v.z))

/-- Modelled from the spec: `Vector3Normalize` of `raymath.h` (missing from src/), in binary32. -/
def Vector3Normalize (v : Vector3 F32) : Vector3 F32 :=
  let length := F32.sqrt (F32.add (F32.add (F32.mul v.x v.x) (F32.mul v.y v.y)) (F32.mul v.z v.z))
  if F32.ne length F32.zero then
    let ilength := F32.div F32.one length
    ⟨F32.mul v.x ilength, F32.mul v.y ilength, F32.mul v.z ilength⟩
  else
    v

/-- The function `ApplyGravity`, `main.c` lines 33-44, every operator being the
binary32 one. -/
def ApplyGravity (particle : Particle F32) (sphere : Sphere F32) : Particle F32 :=
  let direction := Vector3Subtract sphere.position particle.position
  let distance := Vector3Length direction
  if F32.lt F32.zero distance then
    let forceMagnitude :=
      F32.div (F32.mul (F32.mul GRAVITY_CONSTANT sphere.mass) particle.mass)
        (F32.mul distance distance)
    let force := Vector3Scale (Vector3Normalize direction) forceMagnitude
    { particle with velocity := Vector3Add particle.velocity force }
  else
    particle

/-- The local `distance` of `ApplyGravity`, lines 34-35. -/
def distance (particle : Particle F32) (sphere : Sphere F32) : F32 :=
  Vector3Length (Vector3Subtract sphere.position particle.position)

/-- The local `forceMagnitude` of `ApplyGravity`, lines 38-39. -/
def forceMagnitude (particle : Particle F32) (sphere : Sphere F32) : F32 :=
  F32.div (F32.mul (F32.mul GRAVITY_CONSTANT sphere.mass) particle.mass)
    (F32.mul (distance particle sphere) (distance particle sphere))

/-- The local `force` of `ApplyGravity`, line 40. -/
def force (particle : Particle F32) (sphere : Sphere F32) : Vector3 F32 :=
  Vector3Scale (Vector3Normalize (Vector3Subtract sphere.position particle.position))
    (forceMagnitude particle sphere)

/-- The right-hand side of the specification's velocity rule read in binary32:
`velocity_before + normalize(A.position - P.position) * (G * A.mass * P.mass / distance^2)`,
component by component, with `distance^2` as `distance * distance`, `normalize`
as raymath has it and `G = 1.0f`. -/
def specVelocityAfter (P : Particle F32) (A : Sphere F32) : Vector3 F32 :=
  let d := Vector3Length (Vector3Subtract A.position P.position)
  let n := Vector3Normalize (Vector3Subtract A.position P.position)
  let k := F32.div (F32.mul (F32.mul F32.one A.mass) P.mass) (F32.mul d d)
  ⟨F32.add P.velocity.x (F32.mul n.x k),
   F32.add P.velocity.y (F32.mul n.y k),
   F32.add P.velocity.z (F32.mul n.z k)⟩

end Binary32

section Scalars

variable {F : Type} [LinearOrderedField F]

/-- The macro `GRAVITY_CONSTANT`, `main.c` line 30 (`1.0f`). -/
def GRAVITY_CONSTANT : F := 1

/-- Modelled from the spec: the macro `DEG2RAD` of `raylib.h` (missing from
src/), `PI/180.0f`. -/
def DEG2RAD (PI : F) : F := PI / 180

/-! ## `raymath.h` helpers used by the two programs -/

/-- Modelled from the spec: `Vector3Add` of `raymath.h` (missing from src/),
the `+=` on vectors of the gravity rule: component-wise sum. -/
def Vector3Add (v1 v2 : Vector3 F) : Vector3 F :=
  ⟨v1.x + v2.x, v1.y + v2.y, v1.z + v2.z⟩

/-- Modelled from the spec: `Vector3Subtract` of `raymath.h` (missing from
src/), the `attractor.position - particle.position` of the gravity rule. -/
def Vector3Subtract (v1 v2 : Vector3 F) : Vector3 F :=
  ⟨v1.x - v2.x, v1.y - v2.y, v1.z - v2.z⟩

/-- Modelled from the spec: `Vector3Scale` of `raymath.h` (missing from src/),
vector times scalar. -/
def Vector3Scale (v : Vector3 F) (scalar : F) : Vector3 F :=
  ⟨v.x * scalar, v.y * scalar, v.z * scalar⟩

/-- Modelled from the spec: `Vector3DotProduct` of `raymath.h` (missing from
src/), the "dot product" of the direction property. -/
def Vector3DotProduct (v1 v2 : Vector3 F) : F :=
  v1.x * v2.x + v1.y * v2.y + v1.z * v2.z

/-- Modelled from the spec: `Vector3Length` of `raymath.h` (missing from src/),
the `|direction|` of the gravity rule: `sqrtf(v.x*v.x + v.y*v.y + v.z*v.z)`. -/
def Vector3Length (sqrtf : F → F) (v : Vector3 F) : F :=
  sqrtf (v.x * v.x + v.y * v.y + v.z * v.z)

/-- Modelled from the spec: `Vector3Normalize` of `raymath.h` (missing from
src/), the `normalize` of the gravity rule.  raylib computes the length, and
only when it is not `0.0f` multiplies every component by `1.0f/length`; the
zero vector is returned as it came. -/
def Vector3Normalize (sqrtf : F → F) (v : Vector3 F) : Vector3 F :=
  let length := sqrtf (v.x * v.x + v.y * v.y + v.z * v.z)
  if length ≠ 0 then
    let ilength := 1 / length
    ⟨v.x * ilength, v.y * ilength, v.z * ilength⟩
  else
    v

/-- Modelled from the spec: `MatrixIdentity` of `raymath.h` (missing from
src/). -/
def MatrixIdentity : Matrix F :=
  { m0 := 1, m4 := 0, m8 := 0, m12 := 0,
    m1 := 0, m5 := 1, m9 := 0, m13 := 0,
    m2 := 0, m6 := 0, m10 := 1, m14 := 0,
    m3 := 0, m7 := 0, m11 := 0, m15 := 1 }

/-- Modelled from the spec: `MatrixTranslate` of `raymath.h` (missing from
src/), the "pure translation" of the transform contract. -/
def MatrixTranslate (x y z : F) : Matrix F :=
  { m0 := 1, m4 := 0, m8 := 0, m12 := x,
    m1 := 0, m5 := 1, m9 := 0, m13 := y,
    m2 := 0, m6 := 0, m10 := 1, m14 := z,
    m3 := 0, m7 := 0, m11 := 0, m15 := 1 }

/-- Modelled from the spec: `MatrixRotate` of `raymath.h` (missing from src/),
the "rotation" of the transform contract.  raylib renormalises the axis unless
its squared length is `1.0f` or `0.0f`, then fills the axis-angle matrix. -/
def MatrixRotate (sqrtf sinf cosf : F → F) (axis : Vector3 F) (angle : F) : Matrix F :=
  let lengthSquared := axis.x * axis.x + axis.y * axis.y + axis.z * axis.z
  let a : Vector3 F :=
    if lengthSquared ≠ 1 ∧ lengthSquared ≠ 0 then
      let ilength := 1 / sqrtf lengthSquared
      ⟨axis.x * ilength, axis.y * ilength, axis.z * ilength⟩
    else
      axis
  let x := a.x
  let y := a.y
  let z := a.z
  let sinres := sinf angle
  let cosres := cosf angle
  let t := 1 - cosres
  { m0 := x * x * t + cosres,
    m1 := y * x * t + z * sinres,
    m2 := z * x * t - y * sinres,
    m3 := 0,
    m4 := x * y * t - z * sinres,
    m5 := y * y * t + cosres,
    m6 := z * y * t + x * sinres,
    m7 := 0,
    m8 := x * z * t + y * sinres,
    m9 := y * z * t - x * sinres,
    m10 := z * z * t + cosres,
    m11 := 0,
    m12 := 0,
    m13 := 0,
    m14 := 0,
    m15 := 1 }

/-- Modelled from the spec: `MatrixMultiply` of `raymath.h` (missing from
src/), the "compose rotation then translation" of the transform contract. -/
def MatrixMultiply (left right : Matrix F) : Matrix F :=
  { m0 := left.m0 * right.m0 + left.m1 * right.m4 + left.m2 * right.m8 + left.m3 * right.m12,
    m1 := left.m0 * right.m1 + left.m1 * right.m5 + left.m2 * right.m9 + left.m3 * right.m13,
    m2 := left.m0 * right.m2 + left.m1 * right.m6 + left.m2 * right.m10 + left.m3 * right.m14,
    m3 := left.m0 * right.m3 + left.m1 * right.m7 + left.m2 * right.m11 + left.m3 * right.m15,
    m4 := left.m4 * right.m0 + left.m5 * right.m4 + left.m6 * right.m8 + left.m7 * right.m12,
    m5 := left.m4 * right.m1 + left.m5 * right.m5 + left.m6 * right.m9 + left.m7 * right.m13,
    m6 := left.m4 * right.m2 + left.m5 * right.m6 + left.m6 * right.m10 + left.m7 * right.m14,
    m7 := left.m4 * right.m3 + left.m5 * right.m7 + left.m6 * right.m11 + left.m7 * right.m15,
    m8 := left.m8 * right.m0 + left.m9 * right.m4 + left.m10 * right.m8 + left.m11 * right.m12,
    m9 := left.m8 * right.m1 + left.m9 * right.m5 + left.m10 * right.m9 + left.m11 * right.m13,
    m10 := left.m8 * right.m2 + left.m9 * right.m6 + left.m10 * right.m10 + left.m11 * right.m14,
    m11 := left.m8 * right.m3 + left.m9 * right.m7 + left.m10 * right.m11 + left.m11 * right.m15,
    m12 := left.m12 * right.m0 + left.m13 * right.m4 + left.m14 * right.m8 + left.m15 * right.m12,
    m13 := left.m12 * right.m1 + left.m13 * right.m5 + left.m14 * right.m9 + left.m15 * right.m13,
    m14 := left.m12 * right.m2 + left.m13 * right.m6 + left.m14 * right.m10 + left.m15 * right.m14,
    m15 := left.m12 * right.m3 + left.m13 * right.m7 + left.m14 * right.m11 + left.m15 * right.m15 }

/-! ## The gravity rule (`main.c` lines 33-44) -/

/-- The function `ApplyGravity`, `main.c` lines 33-44.  The C function writes
through `particle`; here the updated particle is the result.  `sphere` is a
by-value argument and is only read. -/
def ApplyGravity (sqrtf : F → F) (particle : Particle F) (sphere : Sphere F) : Particle F :=
  let direction := Vector3Subtract sphere.position particle.position
  let distance := Vector3Length sqrtf direction
  if 0 < distance then
    let forceMagnitude :=
      (GRAVITY_CONSTANT * sphere.mass * particle.mass) / (distance * distance)
    let force := Vector3Scale (Vector3Normalize sqrtf direction) forceMagnitude
    { particle with velocity := Vector3Add particle.velocity force }
  else
    particle

/-- The memory a call `ApplyGravity(&p, s)` can reach: the particle behind the
pointer and the caller's sphere, which the callee receives as a copy. -/
structure GravityCall (F : Type) where
  particle : Particle F
  sphere : Sphere F

/-- One call `ApplyGravity(&c.particle, c.sphere)` seen from the caller: the
pointee is replaced by the updated particle, the caller's sphere stays as the
callee only had a copy and `ApplyGravity` has no assignment to it. -/
def callApplyGravity (sqrtf : F → F) (c : GravityCall F) : GravityCall F :=
  { c with particle := ApplyGravity sqrtf c.particle c.sphere }

/-- The velocity a call adds: velocity after minus velocity before. -/
def velocityIncrement (sqrtf : F → F) (particle : Particle F) (sphere : Sphere F) : Vector3 F :=
  Vector3Subtract (ApplyGravity sqrtf particle sphere).velocity particle.velocity

/-! ### The gravity rule as the specification words it -/

/-- The `distance = |direction|` of the specification, with
`direction = attractor.position - particle.position`. -/
def specDistance (sqrtf : F → F) (P : Particle F) (A : Sphere F) : F :=
  sqrtf ((A.position.x - P.position.x) ^ 2 + (A.position.y - P.position.y) ^ 2
    + (A.position.z - P.position.z) ^ 2)

/-- The right-hand side of the specification's velocity rule,
`velocity_before + normalize(A.position - P.position) * (G * A.mass * P.mass / distance^2)`,
component by component, `normalize v` being `v / |v|` and `G = 1`. -/
def specVelocityAfter (sqrtf : F → F) (P : Particle F) (A : Sphere F) : Vector3 F :=
  let d := specDistance sqrtf P A
  let k := 1 * A.mass * P.mass / d ^ 2
  ⟨P.velocity.x + (A.position.x - P.position.x) / d * k,
   P.velocity.y + (A.position.y - P.position.y) / d * k,
   P.velocity.z + (A.position.z - P.position.z) / d * k⟩

/-! ## Start-up of `main.c` (lines 67-100) -/

/-- Three results of `GetRandomValue`, in the order the source lists the
calls. -/
structure Draw3 where
  a : Int
  b : Int
  c : Int

/-- Each of the three results lies in the range the call asked for. -/
def Draw3.within (d : Draw3) (lo hi : Int) : Prop :=
  (lo ≤ d.a ∧ d.a ≤ hi) ∧ (lo ≤ d.b ∧ d.b ≤ hi) ∧ (lo ≤ d.c ∧ d.c ≤ hi)

/-- The results of `GetRandomValue(0, 10)`, `GetRandomValue(0, 10)`,
`GetRandomValue(2, 10)` of `main.c` line 77. -/
def Draw3.forParticle (d : Draw3) : Prop :=
  (0 ≤ d.a ∧ d.a ≤ 10) ∧ (0 ≤ d.b ∧ d.b ≤ 10) ∧ (2 ≤ d.c ∧ d.c ≤ 10)

/-- The body of the particle loop, `main.c` lines 76-80, for the draws `d`. -/
def initParticle (d : Draw3) : Particle F :=
  { position := ⟨(d.a : F), (d.b : F), (d.c : F)⟩,
    radius := 3 / 10,
    velocity := ⟨0, 0, 0⟩,
    mass := 3 / 10 }

/-- The particle loop, `main.c` lines 75-81: iteration `i` uses the draws
`draws i`. -/
def initParticles (draws : Nat → Draw3) : List (Particle F) :=
  (List.range MAX_PARTICLES).map (fun i => initParticle (draws i))

/-- The body of the transform loop, `main.c` lines 92-99, for the draws `d`. -/
def initTransform (sqrtf sinf cosf : F → F) (PI : F) (d : Draw3) : Matrix F :=
  let translation := MatrixTranslate (d.a : F) (d.b : F) (d.c : F)
  let axis := Vector3Normalize sqrtf ⟨0, 1, 0⟩
  let angle := 0 * DEG2RAD PI
  let rotation := MatrixRotate sqrtf sinf cosf axis angle
  MatrixMultiply rotation translation

/-- The transform loop, `main.c` lines 91-100. -/
def initTransforms (sqrtf sinf cosf : F → F) (PI : F) (draws : Nat → Draw3) :
    List (Matrix F) :=
  (List.range MAX_PARTICLES).map (fun i => initTransform sqrtf sinf cosf PI (draws i))

/-- The translation column `(m12, m13, m14)` of a transform. -/
def translationPart (t : Matrix F) : Vector3 F :=
  ⟨t.m12, t.m13, t.m14⟩

/-! ## The frame loop of `main.c` (lines 143-237), update part -/

/-- The part of `Camera3D` the update touches. -/
structure Camera3D (F : Type) where
  position : Vector3 F
  target : Vector3 F

/-- What one frame reads from the windowing library: the frame rate, the camera
as `UpdateCamera` left it, and the keys `IsKeyPressed` reports. -/
structure FrameInput (F : Type) where
  currentFPS : Int
  camera : Camera3D F
  keyZ : Bool
  keyV : Bool
  keyG : Bool
  keyF1 : Bool
  keyF2 : Bool

/-- The locals of `main` that live across frames. -/
structure Sim (F : Type) where
  settings : Settings
  particles : List (Particle F)
  transforms : List (Matrix F)
  camera : Camera3D F
  lastFPS : Int

/-- The state after start-up, `main.c` lines 60-136: `pd` are the draws of the
particle loop, `td` those of the transform loop. -/
def mainInit (sqrtf sinf cosf : F → F) (PI : F) (pd td : Nat → Draw3) : Sim F :=
  { settings := { show_wireframe := false, show_grid := true, show_help := false,
                  show_fps := true },
    particles := initParticles pd,
    transforms := initTransforms sqrtf sinf cosf PI td,
    camera := { position := ⟨10, 10, 10⟩, target := ⟨0, 0, 0⟩ },
    lastFPS := 0 }

/-- The update half of one frame, `main.c` lines 148-191.  The loop over the
particles (lines 182-191) is a comment in the source, so nothing here writes
`particles` or `transforms`. -/
def frameUpdate (s : Sim F) (inp : FrameInput F) : Sim F :=
  let lastFPS := if inp.currentFPS ≠ s.lastFPS then inp.currentFPS else s.lastFPS
  let camera : Camera3D F :=
    if inp.keyZ then { inp.camera with target := ⟨0, 0, 0⟩ } else inp.camera
  let st := s.settings
  let st := if inp.keyV then { st with show_wireframe := !st.show_wireframe } else st
  let st := if inp.keyG then { st with show_grid := !st.show_grid } else st
  let st := if inp.keyF1 then { st with show_help := !st.show_help } else st
  let st := if inp.keyF2 then { st with show_fps := !st.show_fps } else st
  { s with settings := st, camera := camera, lastFPS := lastFPS }

/-- The state after the frames whose inputs are `inps`, oldest first. -/
def runFrames (s : Sim F) (inps : List (FrameInput F)) : Sim F :=
  inps.foldl frameUpdate s

/-! ## Start-up of `instancing.c` (lines 41-49) -/

/-- The rotation axis of `instancing.c` line 44 for the three results `d` of
`GetRandomValue(0, 360)`. -/
def instancingAxis (sqrtf : F → F) (d : Draw3) : Vector3 F :=
  Vector3Normalize sqrtf ⟨(d.a : F), (d.b : F), (d.c : F)⟩

/-- The body of the loop of `instancing.c`, lines 43-48: `t` are the results of
`GetRandomValue(-50, 50)`, `d` those of `GetRandomValue(0, 360)`, `g` that of
`GetRandomValue(0, 180)`. -/
def instancingTransform (sqrtf sinf cosf : F → F) (PI : F) (t d : Draw3) (g : Int) :
    Matrix F :=
  let translation := MatrixTranslate (t.a : F) (t.b : F) (t.c : F)
  let axis := instancingAxis sqrtf d
  let angle := (g : F) * DEG2RAD PI
  let rotation := MatrixRotate sqrtf sinf cosf axis angle
  MatrixMultiply rotation translation

/-! ## What the theorems ask of `sqrtf` -/

/-- On non-negative arguments `sqrtf` returns the non-negative root. -/
def SqrtExact (sqrtf : F → F) : Prop :=
  ∀ x : F, 0 ≤ x → 0 ≤ sqrtf x ∧ sqrtf x * sqrtf x = x

/-! ## Auxiliary facts -/

theorem sqrtf_mul_self {sqrtf : F → F} (hs : SqrtExact sqrtf) (a : F) :
    sqrtf (a * a) = |a| := by
  obtain ⟨h0, h1⟩ := hs (a * a) (mul_self_nonneg a)
  have h2 : sqrtf (a * a) * sqrtf (a * a) = |a| * |a| := by
    rw [h1, abs_mul_abs_self]
  exact (mul_self_inj h0 (abs_nonneg a)).1 h2

theorem sumsq_nonneg (v : Vector3 F) : 0 ≤ v.x * v.x + v.y * v.y + v.z * v.z := by
  have hx := mul_self_nonneg v.x
  have hy := mul_self_nonneg v.y
  have hz := mul_self_nonneg v.z
  linarith

theorem Vector3Length_nonneg {sqrtf : F → F} (hs : SqrtExact sqrtf) (v : Vector3 F) :
    0 ≤ Vector3Length sqrtf v :=
  (hs _ (sumsq_nonneg v)).1

theorem Vector3Length_mul_self {sqrtf : F → F} (hs : SqrtExact sqrtf) (v : Vector3 F) :
    Vector3Length sqrtf v * Vector3Length sqrtf v = v.x * v.x + v.y * v.y + v.z * v.z :=
  (hs _ (sumsq_nonneg v)).2

theorem specDistance_eq (sqrtf : F → F) (P : Particle F) (A : Sphere F) :
    specDistance sqrtf P A
      = Vector3Length sqrtf (Vector3Subtract A.position P.position) := by
  simp only [specDistance, Vector3Length, Vector3Subtract, sq]

/-- In the guarded branch the new velocity is the old one plus the scaled unit
direction, with the operators of the source. -/
theorem ApplyGravity_velocity_of_pos (sqrtf : F → F) (P : Particle F) (A : Sphere F)
    (hd : 0 < Vector3Length sqrtf (Vector3Subtract A.position P.position)) :
    (ApplyGravity sqrtf P A).velocity
      = Vector3Add P.velocity
          (Vector3Scale
            (Vector3Scale (Vector3Subtract A.position P.position)
              (1 / Vector3Length sqrtf (Vector3Subtract A.position P.position)))
            (1 * A.mass * P.mass /
              (Vector3Length sqrtf (Vector3Subtract A.position P.position)
                * Vector3Length sqrtf (Vector3Subtract A.position P.position)))) := by
  have hne : sqrtf ((Vector3Subtract A.position P.position).x
        * (Vector3Subtract A.position P.position).x
      + (Vector3Subtract A.position P.position).y * (Vector3Subtract A.position P.position).y
      + (Vector3Subtract A.position P.position).z * (Vector3Subtract A.position P.position).z)
      ≠ 0 := ne_of_gt hd
  simp only [ApplyGravity, hd, if_true, Vector3Normalize, hne, ne_eq, not_false_eq_true,
    GRAVITY_CONSTANT, Vector3Scale]
  rfl

/-- When the guard fails the particle comes back as it went in. -/
theorem ApplyGravity_of_not_pos (sqrtf : F → F) (P : Particle F) (A : Sphere F)
    (hd : ¬ 0 < Vector3Length sqrtf (Vector3Subtract A.position P.position)) :
    ApplyGravity sqrtf P A = P := by
  simp only [ApplyGravity, hd, if_false]

/-- In the guarded branch the velocity added is the unit direction scaled by the
force magnitude. -/
theorem velocityIncrement_of_pos (sqrtf : F → F) (P : Particle F) (A : Sphere F)
    (hd : 0 < Vector3Length sqrtf (Vector3Subtract A.position P.position)) :
    velocityIncrement sqrtf P A
      = Vector3Scale
          (Vector3Scale (Vector3Subtract A.position P.position)
            (1 / Vector3Length sqrtf (Vector3Subtract A.position P.position)))
          (1 * A.mass * P.mass /
            (Vector3Length sqrtf (Vector3Subtract A.position P.position)
              * Vector3Length sqrtf (Vector3Subtract A.position P.position))) := by
  rw [velocityIncrement, ApplyGravity_velocity_of_pos sqrtf P A hd]
  simp only [Vector3Subtract, Vector3Add, Vector3Scale]
  ext <;> simp only [add_sub_cancel_left]

/-- With an exact square root the length of the velocity added is the absolute
value of the force magnitude `1 * A.mass * P.mass / (distance * distance)`. -/
theorem velocityIncrement_length {sqrtf : F → F} (hs : SqrtExact sqrtf)
    (P : Particle F) (A : Sphere F)
    (hd : 0 < Vector3Length sqrtf (Vector3Subtract A.position P.position)) :
    Vector3Length sqrtf (velocityIncrement sqrtf P A)
      = |1 * A.mass * P.mass /
          (Vector3Length sqrtf (Vector3Subtract A.position P.position)
            * Vector3Length sqrtf (Vector3Subtract A.position P.position))| := by
  rw [velocityIncrement_of_pos sqrtf P A hd, ← sqrtf_mul_self hs]
  have hsq := Vector3Length_mul_self hs (Vector3Subtract A.position P.position)
  have hne : Vector3Length sqrtf (Vector3Subtract A.position P.position) ≠ 0 := ne_of_gt hd
  generalize Vector3Length sqrtf (Vector3Subtract A.position P.position) = d at hsq hne
  generalize Vector3Subtract A.position P.position = v at hsq
  generalize 1 * A.mass * P.mass / (d * d) = k
  simp only [Vector3Length, Vector3Scale]
  congr 1
  have e : v.x * (1 / d) * k * (v.x * (1 / d) * k) + v.y * (1 / d) * k * (v.y * (1 / d) * k)
      + v.z * (1 / d) * k * (v.z * (1 / d) * k)
      = (v.x * v.x + v.y * v.y + v.z * v.z) * ((1 / d) * (1 / d)) * (k * k) := by ring
  rw [e, ← hsq]
  field_simp

/-- A length that is not zero is positive. -/
theorem Vector3Length_pos_of_ne {sqrtf : F → F} (hs : SqrtExact sqrtf) (v : Vector3 F)
    (h : Vector3Length sqrtf v ≠ 0) : 0 < Vector3Length sqrtf v :=
  lt_of_le_of_ne (Vector3Length_nonneg hs v) (Ne.symm h)

theorem sqrtf_zero {sqrtf : F → F} (hs : SqrtExact sqrtf) : sqrtf 0 = 0 := by
  have h := sqrtf_mul_self hs (0 : F)
  rwa [mul_zero, abs_zero] at h

theorem Vector3Length_zero {sqrtf : F → F} (hs : SqrtExact sqrtf) :
    Vector3Length sqrtf (⟨0, 0, 0⟩ : Vector3 F) = 0 := by
  simp only [Vector3Length, mul_zero, add_zero]
  exact sqrtf_zero hs

/-- The real square root is exact. -/
theorem real_SqrtExact : SqrtExact Real.sqrt :=
  fun x hx => ⟨Real.sqrt_nonneg x, Real.mul_self_sqrt hx⟩

/-- From (a,0,0) with `a ≥ 0` the origin is at distance `a`. -/
theorem real_length_to_origin (a : ℝ) (ha : 0 ≤ a) :
    Vector3Length Real.sqrt (Vector3Subtract (⟨0, 0, 0⟩ : Vector3 ℝ) ⟨a, 0, 0⟩) = a := by
  simp only [Vector3Length, Vector3Subtract]
  rw [show (0 - a) * (0 - a) + (0 - 0) * (0 - 0) + (0 - 0) * (0 - 0) = a * a by ring]
  exact Real.sqrt_mul_self ha

/-! ## The gravity rule -/

/-- Exact scalars only: for a particle at strictly positive distance from the
attractor, one call of `ApplyGravity` sets the velocity to
`velocity_before + normalize(A.position - P.position) * (1 * A.mass * P.mass / d^2)`,
component by component, `normalize v` being `v / |v|`; and with the attractor at
the origin with mass 1 and the particle at (10,0,0), at rest, with mass 3/10, the
new velocity is (-3/1000, 0, 0) once `sqrtf 100 = 10`. -/
theorem ApplyGravity_velocity_spec (sqrtf : F → F) :
    (GRAVITY_CONSTANT : F) = 1 ∧
    (∀ (P : Particle F) (A : Sphere F), 0 < specDistance sqrtf P A →
        (ApplyGravity sqrtf P A).velocity = specVelocityAfter sqrtf P A) ∧
    (sqrtf 100 = 10 → ∀ r rA : F,
        (ApplyGravity sqrtf ⟨⟨10, 0, 0⟩, r, ⟨0, 0, 0⟩, 3 / 10⟩ ⟨⟨0, 0, 0⟩, rA, 1⟩).velocity
          = ⟨-(3 / 1000), 0, 0⟩) := by
  refine ⟨rfl, ?_, ?_⟩
  · intro P A hd
    rw [specDistance_eq] at hd
    rw [ApplyGravity_velocity_of_pos sqrtf P A hd]
    simp only [specVelocityAfter, specDistance_eq, Vector3Add, Vector3Scale, Vector3Subtract]
    ext <;> simp only [sq, div_eq_mul_inv, one_mul]
  · intro h100 r rA
    have hl : Vector3Length sqrtf
        (Vector3Subtract (⟨0, 0, 0⟩ : Vector3 F) (⟨10, 0, 0⟩ : Vector3 F)) = 10 := by
      simp only [Vector3Length, Vector3Subtract]
      norm_num
      exact h100
    have hd : 0 < Vector3Length sqrtf
        (Vector3Subtract (⟨0, 0, 0⟩ : Vector3 F) (⟨10, 0, 0⟩ : Vector3 F)) := by
      rw [hl]; norm_num
    rw [ApplyGravity_velocity_of_pos sqrtf _ _ hd, hl]
    simp only [Vector3Add, Vector3Scale, Vector3Subtract]
    ext <;> norm_num

/-- Exact scalars only, on the reals with the real square root: the scenario of
the specification. -/
theorem ApplyGravity_velocity_spec_witness :
    0 < specDistance Real.sqrt ⟨⟨10, 0, 0⟩, 3 / 10, ⟨0, 0, 0⟩, 3 / 10⟩ ⟨⟨0, 0, 0⟩, 1, 1⟩ ∧
    (ApplyGravity Real.sqrt ⟨⟨10, 0, 0⟩, 3 / 10, ⟨0, 0, 0⟩, 3 / 10⟩
        ⟨⟨0, 0, 0⟩, 1, 1⟩).velocity
      = specVelocityAfter Real.sqrt ⟨⟨10, 0, 0⟩, 3 / 10, ⟨0, 0, 0⟩, 3 / 10⟩ ⟨⟨0, 0, 0⟩, 1, 1⟩ ∧
    Real.sqrt 100 = 10 ∧
    (ApplyGravity Real.sqrt ⟨⟨10, 0, 0⟩, 3 / 10, ⟨0, 0, 0⟩, 3 / 10⟩
        ⟨⟨0, 0, 0⟩, 1, 1⟩).velocity = ⟨-(3 / 1000), 0, 0⟩ := by
  have h100 : Real.sqrt 100 = 10 := by
    rw [show (100 : ℝ) = 10 * 10 by norm_num]; exact Real.sqrt_mul_self (by norm_num)
  have hd : 0 < specDistance Real.sqrt ⟨⟨10, 0, 0⟩, 3 / 10, ⟨0, 0, 0⟩, 3 / 10⟩
      ⟨⟨0, 0, 0⟩, 1, 1⟩ := by
    rw [specDistance_eq]
    simp only []
    rw [real_length_to_origin 10 (by norm_num)]
    norm_num
  exact ⟨hd, (ApplyGravity_velocity_spec Real.sqrt).2.1 _ _ hd, h100,
    (ApplyGravity_velocity_spec Real.sqrt).2.2 h100 (3 / 10) 1⟩

/-- C2: when the particle sits exactly on the attractor the guard
`distance > 0` is false and `ApplyGravity` returns the particle unchanged, its
velocity included (`sqrtf 0 = 0`). -/
theorem ApplyGravity_same_position (sqrtf : F → F) (h0 : sqrtf 0 = 0)
    (P : Particle F) (A : Sphere F) (hp : P.position = A.position) :
    ¬ 0 < Vector3Length sqrtf (Vector3Subtract A.position P.position) ∧
    ApplyGravity sqrtf P A = P ∧
    (ApplyGravity sqrtf P A).velocity = P.velocity := by
  have hd : ¬ 0 < Vector3Length sqrtf (Vector3Subtract A.position P.position) := by
    simp only [Vector3Length, Vector3Subtract, hp, sub_self, mul_zero, add_zero, h0,
      lt_self_iff_false, not_false_eq_true]
  have he := ApplyGravity_of_not_pos sqrtf P A hd
  exact ⟨hd, he, by rw [he]⟩

/-- C2, on the reals: a particle placed on the attractor at (1,2,3). -/
theorem ApplyGravity_same_position_witness :
    (ApplyGravity Real.sqrt ⟨⟨1, 2, 3⟩, 3 / 10, ⟨4, 5, 6⟩, 3 / 10⟩
        ⟨⟨1, 2, 3⟩, 1, 1⟩).velocity = ⟨4, 5, 6⟩ :=
  (ApplyGravity_same_position Real.sqrt Real.sqrt_zero
    ⟨⟨1, 2, 3⟩, 3 / 10, ⟨4, 5, 6⟩, 3 / 10⟩ ⟨⟨1, 2, 3⟩, 1, 1⟩ rfl).2.2

/-- C6: a call of `ApplyGravity`, at any distance, leaves the position, the
radius and the mass of the particle as they were, and the caller's sphere is
the one it passed. -/
theorem ApplyGravity_frame (sqrtf : F → F) (c : GravityCall F) :
    (callApplyGravity sqrtf c).particle.position = c.particle.position ∧
    (callApplyGravity sqrtf c).particle.radius = c.particle.radius ∧
    (callApplyGravity sqrtf c).particle.mass = c.particle.mass ∧
    (callApplyGravity sqrtf c).sphere = c.sphere ∧
    (ApplyGravity sqrtf c.particle c.sphere).position = c.particle.position ∧
    (ApplyGravity sqrtf c.particle c.sphere).radius = c.particle.radius ∧
    (ApplyGravity sqrtf c.particle c.sphere).mass = c.particle.mass := by
  simp only [callApplyGravity, ApplyGravity]
  split_ifs <;> simp

/-- Exact scalars only: at nonzero distance and with `A.mass * P.mass > 0` the
velocity that `ApplyGravity` adds has a strictly positive dot product with
`A.position - P.position` (exact square root). -/
theorem force_toward_attractor {sqrtf : F → F} (hs : SqrtExact sqrtf)
    (P : Particle F) (A : Sphere F)
    (hd : Vector3Length sqrtf (Vector3Subtract A.position P.position) ≠ 0)
    (hm : 0 < A.mass * P.mass) :
    0 < Vector3DotProduct (velocityIncrement sqrtf P A)
          (Vector3Subtract A.position P.position) := by
  have hpos := Vector3Length_pos_of_ne hs _ hd
  rw [velocityIncrement_of_pos sqrtf P A hpos]
  have hsq := Vector3Length_mul_self hs (Vector3Subtract A.position P.position)
  generalize Vector3Length sqrtf (Vector3Subtract A.position P.position) = d at hsq hpos
  generalize Vector3Subtract A.position P.position = v at hsq
  simp only [Vector3DotProduct, Vector3Scale]
  have e : v.x * (1 / d) * (1 * A.mass * P.mass / (d * d)) * v.x
      + v.y * (1 / d) * (1 * A.mass * P.mass / (d * d)) * v.y
      + v.z * (1 / d) * (1 * A.mass * P.mass / (d * d)) * v.z
      = (v.x * v.x + v.y * v.y + v.z * v.z) * ((1 / d) * (1 * A.mass * P.mass / (d * d))) := by
    ring
  rw [e, ← hsq]
  have h1 : 0 < 1 / d := one_div_pos.2 hpos
  have h2 : 0 < 1 * A.mass * P.mass / (d * d) := by
    apply div_pos _ (mul_pos hpos hpos)
    rw [one_mul]; exact hm
  exact mul_pos (mul_pos hpos hpos) (mul_pos h1 h2)

/-- Exact scalars only: with the same position at nonzero distance and twice the
attractor mass, the velocity added has exactly twice the length (exact square
root). -/
theorem force_double_mass {sqrtf : F → F} (hs : SqrtExact sqrtf)
    (P : Particle F) (A A2 : Sphere F) (hp : A2.position = A.position)
    (hd : Vector3Length sqrtf (Vector3Subtract A.position P.position) ≠ 0)
    (hm : A2.mass = 2 * A.mass) :
    Vector3Length sqrtf (velocityIncrement sqrtf P A2)
      = 2 * Vector3Length sqrtf (velocityIncrement sqrtf P A) := by
  have hpos := Vector3Length_pos_of_ne hs _ hd
  have hpos2 : 0 < Vector3Length sqrtf (Vector3Subtract A2.position P.position) := by
    rw [hp]; exact hpos
  rw [velocityIncrement_length hs P A hpos, velocityIncrement_length hs P A2 hpos2, hp, hm]
  generalize Vector3Length sqrtf (Vector3Subtract A.position P.position) = d
  rw [show 1 * (2 * A.mass) * P.mass / (d * d) = 2 * (1 * A.mass * P.mass / (d * d)) by ring,
    abs_mul, abs_two]

/-- Exact scalars only: with equal particle masses and the second particle at
twice the (positive) distance of the first, the velocity added to the second has
exactly one quarter of the length (exact square root). -/
theorem force_double_distance {sqrtf : F → F} (hs : SqrtExact sqrtf)
    (P P2 : Particle F) (A : Sphere F) (hm : P2.mass = P.mass)
    (hd : 0 < Vector3Length sqrtf (Vector3Subtract A.position P.position))
    (h2 : Vector3Length sqrtf (Vector3Subtract A.position P2.position)
            = 2 * Vector3Length sqrtf (Vector3Subtract A.position P.position)) :
    Vector3Length sqrtf (velocityIncrement sqrtf P2 A)
      = 1 / 4 * Vector3Length sqrtf (velocityIncrement sqrtf P A) := by
  have hpos2 : 0 < Vector3Length sqrtf (Vector3Subtract A.position P2.position) := by
    rw [h2]; linarith
  rw [velocityIncrement_length hs P A hd, velocityIncrement_length hs P2 A hpos2, h2, hm]
  have hne : Vector3Length sqrtf (Vector3Subtract A.position P.position) ≠ 0 := ne_of_gt hd
  generalize Vector3Length sqrtf (Vector3Subtract A.position P.position) = d at hne
  rw [show 1 * A.mass * P.mass / (2 * d * (2 * d)) = 1 / 4 * (1 * A.mass * P.mass / (d * d)) by
    ring, abs_mul]
  congr 1
  rw [abs_of_pos]; norm_num

/-! ## Start-up of `main.c` -/

/-- The axis (0,1,0) of `main.c` comes back from `Vector3Normalize` as it is. -/
theorem Vector3Normalize_up (sqrtf : F → F) (h1 : sqrtf 1 = 1) :
    Vector3Normalize sqrtf (⟨0, 1, 0⟩ : Vector3 F) = ⟨0, 1, 0⟩ := by
  simp [Vector3Normalize, h1]

/-- The rotation of `main.c`, about (0,1,0) by the angle `0 * DEG2RAD`, is the
identity matrix. -/
theorem main_rotation_identity (sqrtf sinf cosf : F → F) (PI : F) (h1 : sqrtf 1 = 1)
    (hsin : sinf 0 = 0) (hcos : cosf 0 = 1) :
    MatrixRotate sqrtf sinf cosf (Vector3Normalize sqrtf ⟨0, 1, 0⟩) (0 * DEG2RAD PI)
      = MatrixIdentity := by
  rw [Vector3Normalize_up sqrtf h1]
  simp [MatrixRotate, MatrixIdentity, hsin, hcos]

theorem MatrixMultiply_identity_left (t : Matrix F) :
    MatrixMultiply MatrixIdentity t = t := by
  ext <;> simp [MatrixMultiply, MatrixIdentity]

/-- The body of the transform loop yields the translation by its draws. -/
theorem initTransform_eq (sqrtf sinf cosf : F → F) (PI : F) (h1 : sqrtf 1 = 1)
    (hsin : sinf 0 = 0) (hcos : cosf 0 = 1) (d : Draw3) :
    initTransform sqrtf sinf cosf PI d = MatrixTranslate (d.a : F) (d.b : F) (d.c : F) := by
  simp only [initTransform]
  rw [main_rotation_identity sqrtf sinf cosf PI h1 hsin hcos, MatrixMultiply_identity_left]

theorem initTransforms_getElem? (sqrtf sinf cosf : F → F) (PI : F) (draws : Nat → Draw3)
    (i : Nat) (hi : i < MAX_PARTICLES) :
    (initTransforms sqrtf sinf cosf PI draws)[i]?
      = some (initTransform sqrtf sinf cosf PI (draws i)) := by
  simp [initTransforms, List.getElem?_map, List.getElem?_range hi]

theorem initParticles_getElem? (draws : Nat → Draw3) (i : Nat) (hi : i < MAX_PARTICLES) :
    (initParticles draws : List (Particle F))[i]? = some (initParticle (draws i)) := by
  simp [initParticles, List.getElem?_map, List.getElem?_range hi]

theorem frameUpdate_particles (s : Sim F) (inp : FrameInput F) :
    (frameUpdate s inp).particles = s.particles := rfl

theorem frameUpdate_transforms (s : Sim F) (inp : FrameInput F) :
    (frameUpdate s inp).transforms = s.transforms := rfl

/-- No frame writes the particle array or the transform array. -/
theorem runFrames_arrays (s : Sim F) (inps : List (FrameInput F)) :
    (runFrames s inps).particles = s.particles ∧
    (runFrames s inps).transforms = s.transforms := by
  induction inps generalizing s with
  | nil => exact ⟨rfl, rfl⟩
  | cons inp rest ih =>
    have h := ih (frameUpdate s inp)
    simp only [runFrames, List.foldl_cons] at h ⊢
    rw [h.1, h.2]
    exact ⟨frameUpdate_particles s inp, frameUpdate_transforms s inp⟩

/-- After start-up and any number of frames, slot `i` of the transforms holds the
translation by the draws of the transform loop and slot `i` of the particles sits
at the draws of the particle loop. -/
theorem runFrames_slots (sqrtf sinf cosf : F → F) (PI : F) (h1 : sqrtf 1 = 1)
    (hsin : sinf 0 = 0) (hcos : cosf 0 = 1) (pd td : Nat → Draw3)
    (inps : List (FrameInput F)) (i : Nat) (hi : i < MAX_PARTICLES) :
    ((runFrames (mainInit sqrtf sinf cosf PI pd td) inps).transforms[i]?).map translationPart
      = some ⟨((td i).a : F), ((td i).b : F), ((td i).c : F)⟩ ∧
    ((runFrames (mainInit sqrtf sinf cosf PI pd td) inps).particles[i]?).map Particle.position
      = some ⟨((pd i).a : F), ((pd i).b : F), ((pd i).c : F)⟩ := by
  obtain ⟨hp, ht⟩ := runFrames_arrays (mainInit sqrtf sinf cosf PI pd td) inps
  rw [hp, ht]
  simp only [mainInit]
  rw [initTransforms_getElem? sqrtf sinf cosf PI td i hi, initParticles_getElem? pd i hi,
    initTransform_eq sqrtf sinf cosf PI h1 hsin hcos]
  exact ⟨rfl, rfl⟩

/-- C7: in the transform loop of `main.c`, for every index below 100 and all
draws in [-10,10], the rotation about (0,1,0) by angle 0 is the identity matrix
and `transforms[i]` is the pure translation `MatrixTranslate(tx, ty, tz)` by the
three draws, each of its translation entries lying in [-10,10]
(`sqrtf 1 = 1`, `sinf 0 = 0`, `cosf 0 = 1`). -/
theorem initTransforms_pure_translation (sqrtf sinf cosf : F → F) (PI : F)
    (h1 : sqrtf 1 = 1) (hsin : sinf 0 = 0) (hcos : cosf 0 = 1)
    (draws : Nat → Draw3) (hr : ∀ i, (draws i).within (-10) 10)
    (i : Nat) (hi : i < MAX_PARTICLES) :
    MatrixRotate sqrtf sinf cosf (Vector3Normalize sqrtf ⟨0, 1, 0⟩) (0 * DEG2RAD PI)
      = MatrixIdentity ∧
    ∃ t : Matrix F, (initTransforms sqrtf sinf cosf PI draws)[i]? = some t ∧
      t = MatrixTranslate ((draws i).a : F) ((draws i).b : F) ((draws i).c : F) ∧
      (-10 ≤ t.m12 ∧ t.m12 ≤ 10) ∧ (-10 ≤ t.m13 ∧ t.m13 ≤ 10) ∧
      (-10 ≤ t.m14 ∧ t.m14 ≤ 10) := by
  refine ⟨main_rotation_identity sqrtf sinf cosf PI h1 hsin hcos, _,
    initTransforms_getElem? sqrtf sinf cosf PI draws i hi,
    initTransform_eq sqrtf sinf cosf PI h1 hsin hcos (draws i), ?_⟩
  rw [initTransform_eq sqrtf sinf cosf PI h1 hsin hcos (draws i)]
  obtain ⟨⟨a1, a2⟩, ⟨b1, b2⟩, c1, c2⟩ := hr i
  simp only [MatrixTranslate]
  refine ⟨⟨?_, ?_⟩, ⟨?_, ?_⟩, ?_, ?_⟩ <;> exact_mod_cast ‹_›

/-- C8, as amended: after start-up and after any number of frames, the
translation part of `transforms[i]` is the triple drawn for that transform in
the transform loop, `particles[i].position` is the triple drawn in the particle
loop, and the two are equal exactly when the two triples of draws are
(`sqrtf 1 = 1`, `sinf 0 = 0`, `cosf 0 = 1`). -/
theorem transforms_follow_own_draws (sqrtf sinf cosf : F → F) (PI : F)
    (h1 : sqrtf 1 = 1) (hsin : sinf 0 = 0) (hcos : cosf 0 = 1) (pd td : Nat → Draw3)
    (inps : List (FrameInput F)) (i : Nat) (hi : i < MAX_PARTICLES) :
    ((runFrames (mainInit sqrtf sinf cosf PI pd td) inps).transforms[i]?).map translationPart
      = some ⟨((td i).a : F), ((td i).b : F), ((td i).c : F)⟩ ∧
    ((runFrames (mainInit sqrtf sinf cosf PI pd td) inps).particles[i]?).map Particle.position
      = some ⟨((pd i).a : F), ((pd i).b : F), ((pd i).c : F)⟩ ∧
    (((runFrames (mainInit sqrtf sinf cosf PI pd td) inps).transforms[i]?).map translationPart
        = ((runFrames (mainInit sqrtf sinf cosf PI pd td) inps).particles[i]?).map
            Particle.position
      ↔ (td i).a = (pd i).a ∧ (td i).b = (pd i).b ∧ (td i).c = (pd i).c) := by
  obtain ⟨ht, hp⟩ := runFrames_slots sqrtf sinf cosf PI h1 hsin hcos pd td inps i hi
  refine ⟨ht, hp, ?_⟩
  rw [ht, hp]
  simp only [Option.some.injEq, Vector3.mk.injEq, Int.cast_inj]

/-! ## Start-up of `instancing.c` -/

/-- With the axis (0,0,0) `MatrixRotate` returns the scaling by `cosf angle`. -/
theorem MatrixRotate_zero_axis (sqrtf sinf cosf : F → F) (angle : F) :
    MatrixRotate sqrtf sinf cosf ⟨0, 0, 0⟩ angle
      = { m0 := cosf angle, m4 := 0, m8 := 0, m12 := 0,
          m1 := 0, m5 := cosf angle, m9 := 0, m13 := 0,
          m2 := 0, m6 := 0, m10 := cosf angle, m14 := 0,
          m3 := 0, m7 := 0, m11 := 0, m15 := 1 } := by
  simp [MatrixRotate]

/-- Whenever the three draws of `instancing.c` line 44 are not all zero, the
axis has length 1 (exact square root). -/
theorem instancingAxis_unit {sqrtf : F → F} (hs : SqrtExact sqrtf) (d : Draw3)
    (hne : ¬ (d.a = 0 ∧ d.b = 0 ∧ d.c = 0)) :
    Vector3Length sqrtf (instancingAxis sqrtf d) = 1 := by
  have hS : (0 : F) < (d.a : F) * (d.a : F) + (d.b : F) * (d.b : F) + (d.c : F) * (d.c : F) := by
    by_contra hle
    push_neg at hle
    have ha := mul_self_nonneg (d.a : F)
    have hb := mul_self_nonneg (d.b : F)
    have hc := mul_self_nonneg (d.c : F)
    have ha0 : (d.a : F) * (d.a : F) = 0 := by linarith
    have hb0 : (d.b : F) * (d.b : F) = 0 := by linarith
    have hc0 : (d.c : F) * (d.c : F) = 0 := by linarith
    apply hne
    refine ⟨?_, ?_, ?_⟩
    · exact_mod_cast mul_self_eq_zero.1 ha0
    · exact_mod_cast mul_self_eq_zero.1 hb0
    · exact_mod_cast mul_self_eq_zero.1 hc0
  obtain ⟨hL0, hLL⟩ := hs _ (le_of_lt hS)
  have hL : sqrtf ((d.a : F) * (d.a : F) + (d.b : F) * (d.b : F) + (d.c : F) * (d.c : F)) ≠ 0 := by
    intro h0
    rw [h0, mul_zero] at hLL
    exact absurd hLL (ne_of_lt hS)
  simp only [instancingAxis, Vector3Normalize, hL, ne_eq, not_false_eq_true, if_true,
    Vector3Length]
  generalize sqrtf ((d.a : F) * (d.a : F) + (d.b : F) * (d.b : F) + (d.c : F) * (d.c : F)) = L
    at hL hLL
  have e : (d.a : F) * (1 / L) * ((d.a : F) * (1 / L)) + (d.b : F) * (1 / L) * ((d.b : F) * (1 / L))
      + (d.c : F) * (1 / L) * ((d.c : F) * (1 / L)) = 1 * 1 := by
    rw [show (d.a : F) * (1 / L) * ((d.a : F) * (1 / L))
        + (d.b : F) * (1 / L) * ((d.b : F) * (1 / L))
        + (d.c : F) * (1 / L) * ((d.c : F) * (1 / L))
        = ((d.a : F) * (d.a : F) + (d.b : F) * (d.b : F) + (d.c : F) * (d.c : F))
          * ((1 / L) * (1 / L)) by ring, ← hLL]
    field_simp
  rw [e, sqrtf_mul_self hs, abs_one]

end Scalars

/-- Exact scalars only, on the reals: the particle of the specification's
scenario is pulled toward the attractor. -/
theorem force_toward_attractor_witness :
    0 < Vector3DotProduct
          (velocityIncrement Real.sqrt ⟨⟨10, 0, 0⟩, 3 / 10, ⟨0, 0, 0⟩, 3 / 10⟩ ⟨⟨0, 0, 0⟩, 1, 1⟩)
          (Vector3Subtract (⟨0, 0, 0⟩ : Vector3 ℝ) ⟨10, 0, 0⟩) :=
  force_toward_attractor real_SqrtExact ⟨⟨10, 0, 0⟩, 3 / 10, ⟨0, 0, 0⟩, 3 / 10⟩ ⟨⟨0, 0, 0⟩, 1, 1⟩
    (by rw [real_length_to_origin 10 (by norm_num)]; norm_num) (by norm_num)

/-- Exact scalars only, on the reals: attractor masses 1 and 2 at the origin,
particle at (10,0,0). -/
theorem force_double_mass_witness :
    Vector3Length Real.sqrt
        (velocityIncrement Real.sqrt ⟨⟨10, 0, 0⟩, 3 / 10, ⟨0, 0, 0⟩, 3 / 10⟩ ⟨⟨0, 0, 0⟩, 1, 2⟩)
      = 2 * Vector3Length Real.sqrt
        (velocityIncrement Real.sqrt ⟨⟨10, 0, 0⟩, 3 / 10, ⟨0, 0, 0⟩, 3 / 10⟩ ⟨⟨0, 0, 0⟩, 1, 1⟩) :=
  force_double_mass real_SqrtExact ⟨⟨10, 0, 0⟩, 3 / 10, ⟨0, 0, 0⟩, 3 / 10⟩
    ⟨⟨0, 0, 0⟩, 1, 1⟩ ⟨⟨0, 0, 0⟩, 1, 2⟩ rfl
    (by rw [real_length_to_origin 10 (by norm_num)]; norm_num) (by norm_num)

/-- Exact scalars only, on the reals: particles at (10,0,0) and (20,0,0),
attractor at the origin. -/
theorem force_double_distance_witness :
    Vector3Length Real.sqrt
        (velocityIncrement Real.sqrt ⟨⟨20, 0, 0⟩, 3 / 10, ⟨0, 0, 0⟩, 3 / 10⟩ ⟨⟨0, 0, 0⟩, 1, 1⟩)
      = 1 / 4 * Vector3Length Real.sqrt
        (velocityIncrement Real.sqrt ⟨⟨10, 0, 0⟩, 3 / 10, ⟨0, 0, 0⟩, 3 / 10⟩ ⟨⟨0, 0, 0⟩, 1, 1⟩) :=
  force_double_distance real_SqrtExact ⟨⟨10, 0, 0⟩, 3 / 10, ⟨0, 0, 0⟩, 3 / 10⟩
    ⟨⟨20, 0, 0⟩, 3 / 10, ⟨0, 0, 0⟩, 3 / 10⟩ ⟨⟨0, 0, 0⟩, 1, 1⟩ rfl
    (by rw [real_length_to_origin 10 (by norm_num)]; norm_num)
    (by rw [real_length_to_origin 10 (by norm_num), real_length_to_origin 20 (by norm_num)]
        norm_num)

/-- C7, on the reals: slot 0 when every transform draws (-10, 0, 10). -/
theorem initTransforms_pure_translation_witness :
    ∃ t : Matrix ℝ,
      (initTransforms Real.sqrt Real.sin Real.cos Real.pi (fun _ => ⟨-10, 0, 10⟩))[0]? = some t ∧
      t = MatrixTranslate (((-10 : Int) : ℝ)) (((0 : Int) : ℝ)) (((10 : Int) : ℝ)) ∧
      (-10 ≤ t.m12 ∧ t.m12 ≤ 10) ∧ (-10 ≤ t.m13 ∧ t.m13 ≤ 10) ∧
      (-10 ≤ t.m14 ∧ t.m14 ≤ 10) :=
  (initTransforms_pure_translation Real.sqrt Real.sin Real.cos Real.pi Real.sqrt_one
    Real.sin_zero Real.cos_zero (fun _ => ⟨-10, 0, 10⟩)
    (fun _ => by norm_num [Draw3.within]) 0 (by norm_num [MAX_PARTICLES])).2

/-- C8 as written fails: with the particle draws (0,0,2) and the transform draws
(-10,-10,-10), both inside their ranges, right after start-up the translation
part of `transforms[0]` is (-10,-10,-10) while `particles[0].position` is
(0,0,2). -/
theorem transform_not_at_particle_position :
    Draw3.forParticle ⟨0, 0, 2⟩ ∧ Draw3.within ⟨-10, -10, -10⟩ (-10) 10 ∧
    ((mainInit Real.sqrt Real.sin Real.cos Real.pi (fun _ => ⟨0, 0, 2⟩)
        (fun _ => ⟨-10, -10, -10⟩)).transforms[0]?).map translationPart
      = some (⟨-10, -10, -10⟩ : Vector3 ℝ) ∧
    ((mainInit Real.sqrt Real.sin Real.cos Real.pi (fun _ => ⟨0, 0, 2⟩)
        (fun _ => ⟨-10, -10, -10⟩)).particles[0]?).map Particle.position
      = some (⟨0, 0, 2⟩ : Vector3 ℝ) ∧
    ((mainInit Real.sqrt Real.sin Real.cos Real.pi (fun _ => ⟨0, 0, 2⟩)
        (fun _ => ⟨-10, -10, -10⟩)).transforms[0]?).map translationPart
      ≠ ((mainInit Real.sqrt Real.sin Real.cos Real.pi (fun _ => ⟨0, 0, 2⟩)
        (fun _ => ⟨-10, -10, -10⟩)).particles[0]?).map Particle.position := by
  have h := runFrames_slots Real.sqrt Real.sin Real.cos Real.pi Real.sqrt_one
    Real.sin_zero Real.cos_zero (fun _ => ⟨0, 0, 2⟩) (fun _ => ⟨-10, -10, -10⟩) [] 0
    (by norm_num [MAX_PARTICLES])
  simp only [runFrames, List.foldl_nil] at h
  obtain ⟨ht, hp⟩ := h
  refine ⟨by norm_num [Draw3.forParticle], by norm_num [Draw3.within], ?_, ?_, ?_⟩
  · rw [ht]; norm_num
  · rw [hp]; norm_num
  · rw [ht, hp]; norm_num

/-- C8, as amended, on the reals: slot 0 after one frame in which V was pressed,
with the particle draws (0,0,2) and the transform draws (-10,-10,-10). -/
theorem transforms_follow_own_draws_witness :
    ((runFrames (mainInit Real.sqrt Real.sin Real.cos Real.pi (fun _ => ⟨0, 0, 2⟩)
        (fun _ => ⟨-10, -10, -10⟩))
        [⟨60, ⟨⟨10, 10, 10⟩, ⟨0, 0, 0⟩⟩, false, true, false, false, false⟩]).transforms[0]?).map
          translationPart
      = some (⟨((-10 : Int) : ℝ), ((-10 : Int) : ℝ), ((-10 : Int) : ℝ)⟩ : Vector3 ℝ) :=
  (transforms_follow_own_draws Real.sqrt Real.sin Real.cos Real.pi Real.sqrt_one
    Real.sin_zero Real.cos_zero (fun _ => ⟨0, 0, 2⟩) (fun _ => ⟨-10, -10, -10⟩)
    [⟨60, ⟨⟨10, 10, 10⟩, ⟨0, 0, 0⟩⟩, false, true, false, false, false⟩] 0
    (by norm_num [MAX_PARTICLES])).1

/-- C10 fails when the three draws of `GetRandomValue(0, 360)` are all 0, which
the range allows: `Vector3Normalize` returns the zero vector, whose length is 0
and not 1. -/
theorem instancingAxis_all_zero :
    Draw3.within ⟨0, 0, 0⟩ 0 360 ∧
    instancingAxis Real.sqrt ⟨0, 0, 0⟩ = (⟨0, 0, 0⟩ : Vector3 ℝ) ∧
    Vector3Length Real.sqrt (instancingAxis Real.sqrt ⟨0, 0, 0⟩) = 0 ∧
    Vector3Length Real.sqrt (instancingAxis Real.sqrt ⟨0, 0, 0⟩) ≠ 1 := by
  have ha : instancingAxis Real.sqrt ⟨0, 0, 0⟩ = (⟨0, 0, 0⟩ : Vector3 ℝ) := by
    simp [instancingAxis, Vector3Normalize]
  have hl : Vector3Length Real.sqrt (instancingAxis Real.sqrt ⟨0, 0, 0⟩) = 0 := by
    rw [ha]; exact Vector3Length_zero real_SqrtExact
  refine ⟨by norm_num [Draw3.within], ha, hl, ?_⟩
  rw [hl]; norm_num

/-! ## Binary32: rounding, signs and exponent shifts -/

namespace F32

/-! ### Checks of the arithmetic against known binary32 values -/

/-- The integer square root is the floor of the square root. -/
theorem isqrtLoop_spec (M : Nat) (b acc : Nat) (h1 : acc * acc ≤ M)
    (h2 : M < (acc + 2 ^ b) * (acc + 2 ^ b)) :
    isqrtLoop M b acc * isqrtLoop M b acc ≤ M ∧
    M < (isqrtLoop M b acc + 1) * (isqrtLoop M b acc + 1) := by
  induction b generalizing acc with
  | zero => simpa [isqrtLoop] using ⟨h1, h2⟩
  | succ b ih =>
    unfold isqrtLoop
    split_ifs with h
    · apply ih _ h
      have e : acc + 2 ^ b + 2 ^ b = acc + 2 ^ (b + 1) := by rw [pow_succ]; ring
      rw [e]
      exact h2
    · exact ih _ h1 (not_le.1 h)

theorem isqrt_spec (M : Nat) (hM : M < 2 ^ 128) :
    isqrt M * isqrt M ≤ M ∧ M < (isqrt M + 1) * (isqrt M + 1) := by
  apply isqrtLoop_spec M 64 0 (Nat.zero_le _)
  calc M < 2 ^ 128 := hM
    _ = (0 + 2 ^ 64) * (0 + 2 ^ 64) := by norm_num

/-- Known binary32 values: `0.1f`, `0.3f`, `1.0f/3.0f`, `sqrtf(2.0f)`, the
integers 16777217 and 16777219 (ties to even), overflow of twice the largest
finite number, and halves of subnormal numbers. -/
theorem binary32_reference_values :
    roundPos false 1 10 0 = fin false 13421773 (-27) ∧
    roundPos false 3 10 0 = fin false 10066330 (-25) ∧
    div one (ofInt 3) = fin false 11184811 (-25) ∧
    sqrt (ofInt 2) = fin false 11863283 (-23) ∧
    ofInt 16777217 = fin false 8388608 1 ∧
    ofInt 16777219 = fin false 8388610 1 ∧
    mul (fin false (2 ^ 24 - 1) 104) (ofInt 2) = inf false ∧
    div (fin false 1 (-149)) (ofInt 2) = fin false 0 (-149) ∧
    div (fin false 3 (-149)) (ofInt 2) = fin false 2 (-149) ∧
    sub one one = zero ∧
    div one zero = inf false ∧
    div zero zero = nan ∧
    sqrt (neg one) = nan := by
  decide!

end F32

namespace F32

theorem log2Fuel_lt (f n : Nat) (hf : n ≤ f) : n < 2 ^ (log2Fuel f n + 1) := by
  induction f generalizing n with
  | zero =>
    have : n = 0 := by omega
    subst this
    simp [log2Fuel]
  | succ f ih =>
    unfold log2Fuel
    split_ifs with h
    · simpa using h
    · have h2 : n / 2 ≤ f := by omega
      have := ih (n / 2) h2
      rw [pow_succ]
      omega

theorem floorLog2_lt (n : Nat) : n < 2 ^ (floorLog2 n + 1) :=
  log2Fuel_lt n n (le_refl n)

end F32

namespace F32

/-! ### Rounding never loses a positive sum -/

theorem pos_sig {m : Nat} {e : Int} (h : lt zero (fin false m e) = true) : 0 < m := by
  simp only [lt, zero, intVal, Bool.false_eq_true, if_false, decide_eq_true_eq] at h
  rcases Nat.eq_zero_or_pos m with h0 | h0
  · subst h0; simp at h
  · exact h0

end F32

namespace F32

/-! ### Rounding commutes with a change of exponent -/

theorem roundSig_le_succ (n d : Nat) (sh : Int) :
    roundSig n d sh
      ≤ (if 0 ≤ sh then n * 2 ^ sh.toNat else n) / (if 0 ≤ sh then d else d * 2 ^ (-sh).toNat)
        + 1 := by
  unfold roundSig
  simp only
  split_ifs <;> omega

/-- In the subnormal range the rounded significand stays below `2^24`. -/
theorem roundSig_clamped (n d : Nat) (k : Int) (hd : 0 < d)
    (hc : floorLog2Ratio n d + k - 23 < -149) :
    roundSig n d (k + 149) ≤ 2 ^ 23 := by
  refine le_trans (roundSig_le_succ n d _) ?_
  have hF := floorLog2_lt (n * 2 ^ 64 / d)
  rw [Nat.div_lt_iff_lt_mul hd] at hF
  unfold floorLog2Ratio at hc
  generalize floorLog2 (n * 2 ^ 64 / d) = F at hF hc
  apply Nat.succ_le_of_lt
  by_cases hsh : 0 ≤ k + 149
  · simp only [hsh, if_true]
    obtain ⟨t, ht⟩ := Int.eq_ofNat_of_zero_le hsh
    rw [ht, Int.toNat_ofNat]
    rw [Nat.div_lt_iff_lt_mul hd]
    have hFt : F + 1 + t ≤ 87 := by omega
    have h1 : n * 2 ^ t * 2 ^ 64 < 2 ^ 23 * d * 2 ^ 64 := by
      calc n * 2 ^ t * 2 ^ 64 = n * 2 ^ 64 * 2 ^ t := by ring
        _ < 2 ^ (F + 1) * d * 2 ^ t := Nat.mul_lt_mul_of_pos_right hF (by positivity)
        _ = 2 ^ (F + 1 + t) * d := by rw [pow_add]; ring
        _ ≤ 2 ^ 87 * d := Nat.mul_le_mul_right d (Nat.pow_le_pow_right (by norm_num) hFt)
        _ = 2 ^ 23 * d * 2 ^ 64 := by ring
    exact Nat.lt_of_mul_lt_mul_right h1
  · simp only [hsh, if_false]
    have hneg : 0 ≤ -(k + 149) := by omega
    obtain ⟨t, ht⟩ := Int.eq_ofNat_of_zero_le hneg
    rw [ht, Int.toNat_ofNat]
    rw [Nat.div_lt_iff_lt_mul (Nat.mul_pos hd (by positivity))]
    have hFt : F + 1 ≤ 87 + t := by omega
    have h1 : n * 2 ^ 64 < 2 ^ 23 * (d * 2 ^ t) * 2 ^ 64 := by
      calc n * 2 ^ 64 < 2 ^ (F + 1) * d := hF
        _ ≤ 2 ^ (87 + t) * d := Nat.mul_le_mul_right d (Nat.pow_le_pow_right (by norm_num) hFt)
        _ = 2 ^ 23 * (d * 2 ^ t) * 2 ^ 64 := by rw [pow_add]; ring
    exact Nat.lt_of_mul_lt_mul_right h1

/-- A result with exponent above `-149` was not rounded in the subnormal range. -/
theorem not_clamped_of_exp (n d : Nat) (k : Int) (hd : 0 < d)
    (he : -148 ≤ (roundCore n d k).2) : -149 ≤ floorLog2Ratio n d + k - 23 := by
  by_contra hc
  push_neg at hc
  have hexp : roundExp n d k = -149 := by
    unfold roundExp
    exact max_eq_right (le_of_lt hc)
  have hs := roundSig_clamped n d k hd hc
  unfold roundCore at he
  rw [hexp] at he
  have hk : k - -149 = k + 149 := by ring
  rw [hk] at he
  have hne : roundSig n d (k + 149) ≠ 2 ^ 24 := by
    intro h
    rw [h] at hs
    norm_num at hs
  rw [if_neg hne] at he
  simp only at he
  omega

theorem roundCore_exp_le (n d : Nat) (k : Int) :
    (roundCore n d k).2 ≤ roundExp n d k + 1 := by
  unfold roundCore
  split <;> simp

theorem roundCore_shift (n d : Nat) (k j : Int)
    (h1 : -149 ≤ floorLog2Ratio n d + k - 23)
    (h2 : -149 ≤ floorLog2Ratio n d + (k + j) - 23) :
    roundCore n d (k + j) = ((roundCore n d k).1, (roundCore n d k).2 + j) := by
  have e1 : roundExp n d k = floorLog2Ratio n d + k - 23 := max_eq_left h1
  have e2 : roundExp n d (k + j) = floorLog2Ratio n d + k - 23 + j := by
    unfold roundExp
    rw [max_eq_left h2]
    ring
  have e3 : k + j - (floorLog2Ratio n d + k - 23 + j) = k - (floorLog2Ratio n d + k - 23) := by
    ring
  unfold roundCore
  rw [e1, e2, e3]
  split
  · simp only [Prod.mk.injEq, true_and]; ring
  · rfl

/-- When the rounded result is finite with exponent `e ≥ -148`, rounding the
same number times `2^j` gives the same significand with exponent `e + j`, as
long as `-148 ≤ e + j ≤ 104`. -/
theorem roundPos_shift (s : Bool) (n d : Nat) (k j : Int) (hd : 0 < d)
    {s1 : Bool} {m : Nat} {e : Int} (h : roundPos s n d k = fin s1 m e)
    (h1 : -148 ≤ e) (h2 : -148 ≤ e + j) (h3 : e + j ≤ 104) :
    roundPos s n d (k + j) = fin s1 m (e + j) := by
  unfold roundPos at h
  split at h
  · exact absurd h (by simp)
  · simp only [fin.injEq] at h
    obtain ⟨hs, hm, he⟩ := h
    have hn1 := not_clamped_of_exp n d k hd (by rw [he]; exact h1)
    have hle := roundCore_exp_le n d k
    have hexp : roundExp n d k = floorLog2Ratio n d + k - 23 := max_eq_left hn1
    have hn2 : -149 ≤ floorLog2Ratio n d + (k + j) - 23 := by omega
    have hsh := roundCore_shift n d k j hn1 hn2
    unfold roundPos
    rw [hsh]
    simp only
    rw [hs, hm, he]
    rw [if_neg (by omega)]

theorem mul_scale_left {a b : F32} (j : Int) {s : Bool} {m : Nat} {e : Int}
    (h : mul a b = fin s m e) (hm : m ≠ 0)
    (h1 : -148 ≤ e) (h2 : -148 ≤ e + j) (h3 : e + j ≤ 104) :
    mul (scaleExp j a) b = fin s m (e + j) := by
  rcases a with _ | s1 | ⟨s1, m1, e1⟩ <;> rcases b with _ | s2 | ⟨s2, m2, e2⟩ <;>
    simp only [mul] at h <;> (try cases h) <;>
    (try (split_ifs at h <;> cases h))
  split_ifs at h with h0
  · simp only [fin.injEq] at h
    exact absurd h.2.1.symm hm
  · push_neg at h0
    simp only [scaleExp, if_neg h0.1, mul, h0.1, h0.2, or_self, if_false]
    have := roundPos_shift (xor s1 s2) (m1 * m2) 1 (e1 + e2) j (by norm_num) h h1 h2 h3
    rw [show e1 + j + e2 = e1 + e2 + j by ring]
    exact this

theorem mul_scale_right {a b : F32} (j : Int) {s : Bool} {m : Nat} {e : Int}
    (h : mul a b = fin s m e) (hm : m ≠ 0)
    (h1 : -148 ≤ e) (h2 : -148 ≤ e + j) (h3 : e + j ≤ 104) :
    mul a (scaleExp j b) = fin s m (e + j) := by
  rcases a with _ | s1 | ⟨s1, m1, e1⟩ <;> rcases b with _ | s2 | ⟨s2, m2, e2⟩ <;>
    simp only [mul] at h <;> (try cases h) <;>
    (try (split_ifs at h <;> cases h))
  split_ifs at h with h0
  · simp only [fin.injEq] at h
    exact absurd h.2.1.symm hm
  · push_neg at h0
    simp only [scaleExp, if_neg h0.2, mul, h0.1, h0.2, or_self, if_false]
    have := roundPos_shift (xor s1 s2) (m1 * m2) 1 (e1 + e2) j (by norm_num) h h1 h2 h3
    rw [show e1 + (e2 + j) = e1 + e2 + j by ring]
    exact this

theorem div_scale_num {a b : F32} (j : Int) {s : Bool} {m : Nat} {e : Int}
    (h : div a b = fin s m e) (hm : m ≠ 0)
    (h1 : -148 ≤ e) (h2 : -148 ≤ e + j) (h3 : e + j ≤ 104) :
    div (scaleExp j a) b = fin s m (e + j) := by
  rcases a with _ | s1 | ⟨s1, m1, e1⟩ <;> rcases b with _ | s2 | ⟨s2, m2, e2⟩ <;>
    simp only [div] at h <;> (try cases h)
  · exact absurd rfl hm
  · by_cases h0 : m2 = 0
    · simp only [h0, if_true] at h
      split_ifs at h
    · by_cases h0' : m1 = 0
      · simp only [h0, h0', if_true, if_false, fin.injEq] at h
        exact absurd h.2.1.symm hm
      · simp only [h0, h0', if_false] at h
        simp only [scaleExp, h0, h0', if_false, div]
        have := roundPos_shift (xor s1 s2) m1 m2 (e1 - e2) j (Nat.pos_of_ne_zero h0) h h1 h2 h3
        rw [show e1 + j - e2 = e1 - e2 + j by ring]
        exact this

theorem div_scale_den {a b : F32} (j : Int) {s : Bool} {m : Nat} {e : Int}
    (h : div a b = fin s m e) (hm : m ≠ 0)
    (h1 : -148 ≤ e) (h2 : -148 ≤ e - j) (h3 : e - j ≤ 104) :
    div a (scaleExp j b) = fin s m (e - j) := by
  rcases a with _ | s1 | ⟨s1, m1, e1⟩ <;> rcases b with _ | s2 | ⟨s2, m2, e2⟩ <;>
    simp only [div] at h <;> (try cases h)
  · exact absurd rfl hm
  · by_cases h0 : m2 = 0
    · simp only [h0, if_true] at h
      split_ifs at h
    · by_cases h0' : m1 = 0
      · simp only [h0, h0', if_true, if_false, fin.injEq] at h
        exact absurd h.2.1.symm hm
      · simp only [h0, h0', if_false] at h
        simp only [scaleExp, h0, h0', if_false, div]
        have := roundPos_shift (xor s1 s2) m1 m2 (e1 - e2) (-j) (Nat.pos_of_ne_zero h0) h h1
          (by omega) (by omega)
        rw [show e1 - (e2 + j) = e1 - e2 + -j by ring, show e - j = e + -j by ring]
        exact this

theorem toRat_scaleExp (j : Int) {s : Bool} {m : Nat} {e : Int} :
    toRat (fin s m (e + j)) = (toRat (fin s m e)).map (fun q => (2 : ℚ) ^ j * q) := by
  simp only [toRat, Option.map_some', Option.some.injEq]
  rw [zpow_add₀ (by norm_num : (2 : ℚ) ≠ 0)]
  ring

end F32

namespace F32

theorem signOk_of_pos {a : F32} (h : lt zero a = true) : signOk false a := by
  rcases a with _ | s1 | ⟨s1, m1, e1⟩
  · trivial
  · cases s1
    · rfl
    · simp [lt, zero] at h
  · cases s1
    · rfl
    · simp only [lt, zero, intVal, if_true, Bool.false_eq_true, if_false,
        decide_eq_true_eq, zero_mul, Nat.cast_zero] at h
      have : (0 : Int) ≤ ((m1 * 2 ^ (e1 + 149).toNat : Nat) : Int) := Int.ofNat_nonneg _
      omega

theorem pos_of_ne_zero {a : F32} (ha : NonNeg a) (h : ne a zero = true) :
    lt zero a = true := by
  obtain ⟨h1, h2, -⟩ := ha
  rcases a with _ | s1 | ⟨s1, m1, e1⟩ <;> simp only [signOk] at h2 <;> subst_vars
  · exact absurd rfl h1
  · rfl
  · simp only [ne, zero, intVal, Bool.false_eq_true, if_false, decide_eq_true_eq] at h
    simp only [lt, zero, intVal, Bool.false_eq_true, if_false, decide_eq_true_eq]
    have : (0 : Int) ≤ ((m1 * 2 ^ (e1 + 149).toNat : Nat) : Int) := Int.ofNat_nonneg _
    simp only [zero_mul, Nat.cast_zero] at h ⊢
    omega

/-- A number greater than zero stays so when its exponent is changed. -/
theorem lt_zero_scaleExp (j : Int) {a : F32} (h : lt zero a = true) :
    lt zero (scaleExp j a) = true := by
  have hs := signOk_of_pos h
  rcases a with _ | s1 | ⟨s1, m1, e1⟩ <;> simp only [signOk] at hs <;> subst_vars
  · exact h
  · exact h
  · have hm := pos_sig h
    rw [scaleExp, if_neg (Nat.pos_iff_ne_zero.1 hm)]
    simp only [lt, zero, intVal, Bool.false_eq_true, if_false, decide_eq_true_eq, zero_mul,
      Nat.cast_zero]
    exact_mod_cast Nat.mul_pos hm (by positivity)

end F32

namespace Binary32

open F32

theorem ApplyGravity_velocity_of_guard (P : Particle F32) (A : Sphere F32)
    (hd : F32.lt F32.zero (distance P A) = true) :
    (ApplyGravity P A).velocity = Vector3Add P.velocity (force P A) := by
  unfold distance at hd
  simp only [ApplyGravity, hd, if_true]
  rfl

end Binary32

namespace Binary32

open F32

theorem scaleExp_fin (j : Int) (s : Bool) {m : Nat} (e : Int) (hm : m ≠ 0) :
    scaleExp j (fin s m e) = fin s m (e + j) := by
  simp only [scaleExp, if_neg hm]

/-- Doubling the attractor mass inside the normal range doubles the scalar
`forceMagnitude`. -/
theorem forceMagnitude_scale_mass (P : Particle F32) (A A2 : Sphere F32)
    (hp : A2.position = A.position) (hm : A2.mass = scaleExp 1 A.mass)
    (h0 : InRange (-148) 103 (F32.mul GRAVITY_CONSTANT A.mass))
    (ht : InRange (-148) 103 (F32.mul (F32.mul GRAVITY_CONSTANT A.mass) P.mass))
    (hf : InRange (-148) 103 (forceMagnitude P A)) :
    forceMagnitude P A2 = scaleExp 1 (forceMagnitude P A) := by
  obtain ⟨s0, m0, e0, h0e, h0m, h0l, h0h⟩ := h0
  obtain ⟨s1, m1, e1, hte, htm, htl, hth⟩ := ht
  obtain ⟨s2, m2, e2, hfe, hfm, hfl, hfh⟩ := hf
  have hdist : distance P A2 = distance P A := by
    unfold distance
    rw [hp]
  have a1 : F32.mul GRAVITY_CONSTANT A2.mass = fin s0 m0 (e0 + 1) := by
    rw [hm]
    exact mul_scale_right 1 h0e h0m h0l (by omega) (by omega)
  have a2 : F32.mul (F32.mul GRAVITY_CONSTANT A2.mass) P.mass = fin s1 m1 (e1 + 1) := by
    rw [a1, ← scaleExp_fin 1 s0 e0 h0m, ← h0e]
    exact mul_scale_left 1 hte htm htl (by omega) (by omega)
  have a3 : forceMagnitude P A2 = fin s2 m2 (e2 + 1) := by
    unfold forceMagnitude at hfe ⊢
    rw [hdist, a2, ← scaleExp_fin 1 s1 e1 htm, ← hte]
    exact div_scale_num 1 hfe hfm hfl (by omega) (by omega)
  rw [a3, hfe, scaleExp_fin 1 s2 e2 hfm]

theorem mul_zero_left_fin {n : F32} (hn : IsZero n) (s : Bool) (m : Nat) (e : Int) :
    ∃ t, F32.mul n (fin s m e) = fin t 0 (-149) := by
  obtain ⟨s0, e0, rfl⟩ := hn
  exact ⟨xor s0 s, by simp [F32.mul]⟩

/-- One force component under the doubled `forceMagnitude`. -/
theorem component_scale {n fm : F32} (hf : InRange (-148) 103 fm)
    (hc : IsZero n ∨ InRange (-148) 103 (F32.mul n fm)) :
    F32.mul n (scaleExp 1 fm) = scaleExp 1 (F32.mul n fm) := by
  obtain ⟨s2, m2, e2, hfe, hfm, hfl, hfh⟩ := hf
  rcases hc with hz | ⟨s3, m3, e3, hce, hcm, hcl, hch⟩
  · obtain ⟨s0, e0, rfl⟩ := hz
    rw [hfe, scaleExp_fin 1 s2 e2 hfm]
    simp [F32.mul, scaleExp]
  · rw [hce, scaleExp_fin 1 s3 e3 hcm]
    exact mul_scale_right 1 hce hcm hcl (by omega) (by omega)

end Binary32

namespace Binary32

open F32

/-- C1, as amended: in binary32, for a particle whose computed distance to the
attractor compares greater than zero, one call of `ApplyGravity` sets the
velocity to the binary32 value of
`velocity_before + normalize(A.position - P.position) * (1 * A.mass * P.mass / d^2)`,
component by component, every operation rounded to binary32 in the order written
(so an overflowing intermediate gives an infinity or NaN); and with the attractor
at the origin with mass `1.0f` and the particle at (10,0,0), at rest, with mass
`0.3f`, the new velocity is `(-0.003f, 0, 0)`, where `-0.003f`, the binary32
nearest to -0.003, is within `2^-33` of -0.003. -/
theorem ApplyGravity_velocity_binary32 :
    GRAVITY_CONSTANT = F32.one ∧
    (∀ (P : Particle F32) (A : Sphere F32), F32.lt F32.zero (distance P A) = true →
        (ApplyGravity P A).velocity = specVelocityAfter P A) ∧
    (ApplyGravity
        ⟨⟨ofInt 10, zero, zero⟩, roundPos false 3 10 0, ⟨zero, zero, zero⟩, roundPos false 3 10 0⟩
        ⟨⟨zero, zero, zero⟩, one, one⟩).velocity = ⟨roundPos true 3 1000 0, zero, zero⟩ ∧
    (∃ q : ℚ, toRat (roundPos true 3 1000 0) = some q ∧ |q - (-(3 / 1000))| < 1 / 2 ^ 33) := by
  refine ⟨rfl, ?_, ?_, ?_⟩
  · intro P A hd
    rw [ApplyGravity_velocity_of_guard P A hd]
    rfl
  · exact Vector3.ext (by decide!) (by decide!) (by decide!)
  · have h : roundPos true 3 1000 0 = fin true 12884902 (-32) := by decide!
    rw [h]
    refine ⟨_, rfl, ?_⟩
    rw [abs_lt]
    constructor <;> norm_num

/-- C1, as amended, at the particle (3,4,0) moving with velocity (1,0,0). -/
theorem ApplyGravity_velocity_binary32_witness :
    F32.lt F32.zero
        (distance ⟨⟨ofInt 3, ofInt 4, zero⟩, roundPos false 3 10 0, ⟨one, zero, zero⟩,
          roundPos false 3 10 0⟩ ⟨⟨zero, zero, zero⟩, one, one⟩) = true ∧
    (ApplyGravity ⟨⟨ofInt 3, ofInt 4, zero⟩, roundPos false 3 10 0, ⟨one, zero, zero⟩,
        roundPos false 3 10 0⟩ ⟨⟨zero, zero, zero⟩, one, one⟩).velocity
      = specVelocityAfter ⟨⟨ofInt 3, ofInt 4, zero⟩, roundPos false 3 10 0, ⟨one, zero, zero⟩,
          roundPos false 3 10 0⟩ ⟨⟨zero, zero, zero⟩, one, one⟩ :=
  ⟨by decide!, ApplyGravity_velocity_binary32.2.1 _ _ (by decide!)⟩

/-- C1 as written fails: with both masses `2^64` and the particle at rest at
(10,0,0), distance 10 from the attractor at the origin, the formula of the claim
has the value (-2^128/100, 0, 0), about -3.4e36, while `ApplyGravity` leaves the
velocity (-inf, NaN, NaN): the product of the masses overflows binary32.  And a
particle at (2^-80, 0, 0), at positive distance from the origin, keeps its
velocity: the computed distance is 0 and the guard is not taken. -/
theorem velocity_overflows_at_large_masses :
    toRat (fin false (2 ^ 23) 41) = some (2 ^ 64) ∧
    toRat (ofInt 10) = some 10 ∧
    F32.lt F32.zero
        (distance ⟨⟨ofInt 10, zero, zero⟩, roundPos false 3 10 0, ⟨zero, zero, zero⟩,
          fin false (2 ^ 23) 41⟩ ⟨⟨zero, zero, zero⟩, one, fin false (2 ^ 23) 41⟩) = true ∧
    (ApplyGravity ⟨⟨ofInt 10, zero, zero⟩, roundPos false 3 10 0, ⟨zero, zero, zero⟩,
        fin false (2 ^ 23) 41⟩ ⟨⟨zero, zero, zero⟩, one, fin false (2 ^ 23) 41⟩).velocity
      = ⟨inf true, nan, nan⟩ ∧
    BlackHole.specVelocityAfter Real.sqrt ⟨⟨10, 0, 0⟩, 3 / 10, ⟨0, 0, 0⟩, 2 ^ 64⟩
        ⟨⟨0, 0, 0⟩, 1, 2 ^ 64⟩ = ⟨-(2 ^ 128 / 100), 0, 0⟩ ∧
    distance ⟨⟨fin false (2 ^ 23) (-103), zero, zero⟩, roundPos false 3 10 0,
        ⟨zero, zero, zero⟩, roundPos false 3 10 0⟩ ⟨⟨zero, zero, zero⟩, one, one⟩ = zero ∧
    (ApplyGravity ⟨⟨fin false (2 ^ 23) (-103), zero, zero⟩, roundPos false 3 10 0,
        ⟨zero, zero, zero⟩, roundPos false 3 10 0⟩ ⟨⟨zero, zero, zero⟩, one, one⟩).velocity
      = ⟨zero, zero, zero⟩ := by
  refine ⟨?_, ?_, by decide!, Vector3.ext (by decide!) (by decide!) (by decide!), ?_,
    by decide!, Vector3.ext (by decide!) (by decide!) (by decide!)⟩
  · simp only [toRat, Bool.false_eq_true, if_false, Option.some.injEq]
    norm_num
  · have h : ofInt 10 = fin false 10485760 (-20) := by decide!
    rw [h]
    simp only [toRat, Bool.false_eq_true, if_false, Option.some.injEq]
    norm_num
  · have hd : BlackHole.specDistance Real.sqrt ⟨⟨10, 0, 0⟩, 3 / 10, ⟨0, 0, 0⟩, 2 ^ 64⟩
        ⟨⟨0, 0, 0⟩, 1, 2 ^ 64⟩ = 10 := by
      rw [specDistance_eq]
      exact real_length_to_origin 10 (by norm_num)
    simp only [BlackHole.specVelocityAfter, hd]
    ext <;> norm_num

end Binary32

namespace Binary32

open F32

/-- C4, as amended: in binary32, for attractors `A`, `A2` at the same position,
at a computed distance greater than zero, with `A2.mass` exactly twice `A.mass`,
the scalar `forceMagnitude` and every component of the force that `ApplyGravity`
adds under `A2` are exactly twice those under `A`, provided that under `A` the
products `1 * A.mass` and `1 * A.mass * P.mass`, the quotient `forceMagnitude`
and every force component are nonzero finite numbers with exponent in
[-148, 103] (magnitude from 2^-125 up to below 2^127), a force component being
also allowed to vanish because the unit direction has a zero there. -/
theorem force_double_mass_binary32 (P : Particle F32) (A A2 : Sphere F32)
    (hp : A2.position = A.position) (hm : A2.mass = scaleExp 1 A.mass)
    (hd : F32.lt F32.zero (distance P A) = true)
    (h0 : InRange (-148) 103 (F32.mul GRAVITY_CONSTANT A.mass))
    (ht : InRange (-148) 103 (F32.mul (F32.mul GRAVITY_CONSTANT A.mass) P.mass))
    (hf : InRange (-148) 103 (forceMagnitude P A))
    (hx : IsZero (Vector3Normalize (Vector3Subtract A.position P.position)).x ∨
      InRange (-148) 103 (force P A).x)
    (hy : IsZero (Vector3Normalize (Vector3Subtract A.position P.position)).y ∨
      InRange (-148) 103 (force P A).y)
    (hz : IsZero (Vector3Normalize (Vector3Subtract A.position P.position)).z ∨
      InRange (-148) 103 (force P A).z) :
    forceMagnitude P A2 = scaleExp 1 (forceMagnitude P A) ∧
    (∃ q : ℚ, toRat (forceMagnitude P A) = some q ∧
      toRat (forceMagnitude P A2) = some (2 * q)) ∧
    (force P A2).x = scaleExp 1 (force P A).x ∧
    (force P A2).y = scaleExp 1 (force P A).y ∧
    (force P A2).z = scaleExp 1 (force P A).z ∧
    (ApplyGravity P A).velocity = Vector3Add P.velocity (force P A) ∧
    (ApplyGravity P A2).velocity = Vector3Add P.velocity (force P A2) := by
  have hfm := forceMagnitude_scale_mass P A A2 hp hm h0 ht hf
  have hdist : distance P A2 = distance P A := by
    unfold distance
    rw [hp]
  refine ⟨hfm, ?_, ?_, ?_, ?_, ApplyGravity_velocity_of_guard P A hd,
    ApplyGravity_velocity_of_guard P A2 (by rw [hdist]; exact hd)⟩
  · obtain ⟨s2, m2, e2, hfe, hfm2, -, -⟩ := hf
    rw [hfm, hfe, scaleExp_fin 1 s2 e2 hfm2, toRat_scaleExp]
    refine ⟨(if s2 then -1 else 1) * (m2 : ℚ) * (2 : ℚ) ^ e2, rfl, ?_⟩
    simp only [toRat, Option.map_some', zpow_one]
  · unfold force Vector3Scale at hx ⊢
    simp only at hx ⊢
    rw [hp, hfm]
    exact component_scale hf hx
  · unfold force Vector3Scale at hy ⊢
    simp only at hy ⊢
    rw [hp, hfm]
    exact component_scale hf hy
  · unfold force Vector3Scale at hz ⊢
    simp only at hz ⊢
    rw [hp, hfm]
    exact component_scale hf hz

/-- C4, as amended, at the scenario of the specification with the attractor mass
raised from `1.0f` to `2.0f`: the force magnitude goes from `12884902 * 2^-32` to
`12884902 * 2^-31`. -/
theorem force_double_mass_binary32_witness :
    forceMagnitude ⟨⟨ofInt 10, zero, zero⟩, roundPos false 3 10 0, ⟨zero, zero, zero⟩,
        roundPos false 3 10 0⟩ ⟨⟨zero, zero, zero⟩, one, ofInt 2⟩
      = scaleExp 1 (forceMagnitude ⟨⟨ofInt 10, zero, zero⟩, roundPos false 3 10 0,
          ⟨zero, zero, zero⟩, roundPos false 3 10 0⟩ ⟨⟨zero, zero, zero⟩, one, one⟩) ∧
    forceMagnitude ⟨⟨ofInt 10, zero, zero⟩, roundPos false 3 10 0, ⟨zero, zero, zero⟩,
        roundPos false 3 10 0⟩ ⟨⟨zero, zero, zero⟩, one, ofInt 2⟩ = fin false 12884902 (-31) :=
  ⟨(force_double_mass_binary32
    ⟨⟨ofInt 10, zero, zero⟩, roundPos false 3 10 0, ⟨zero, zero, zero⟩, roundPos false 3 10 0⟩
    ⟨⟨zero, zero, zero⟩, one, one⟩ ⟨⟨zero, zero, zero⟩, one, ofInt 2⟩ rfl (by decide!)
    (by decide!)
    ⟨false, 2 ^ 23, -23, by decide!, by norm_num, by norm_num, by norm_num⟩
    ⟨false, 10066330, -25, by decide!, by norm_num, by norm_num, by norm_num⟩
    ⟨false, 12884902, -32, by decide!, by norm_num, by norm_num, by norm_num⟩
    (Or.inr ⟨true, 12884902, -32, by decide!, by norm_num, by norm_num, by norm_num⟩)
    (Or.inl ⟨false, -149, by decide!⟩)
    (Or.inl ⟨false, -149, by decide!⟩)).1, by decide!⟩

/-- C4 as written fails.  At P = (2^-64, 0, 0) with mass 0.75 the attractor mass 1
gives the finite force magnitude `1.5 * 2^127` and the force
(-1.5 * 2^127, 0, 0), while mass 2 gives +inf and the force (-inf, NaN, NaN),
whose length is NaN.  At P = (1, 0, 0) with mass `5 * 2^-76` the attractor masses
`2^-76` and `2^-75` give the same force magnitude `2^-149` and the same force. -/
theorem double_mass_not_double_force :
    ofInt 2 = scaleExp 1 one ∧
    forceMagnitude ⟨⟨fin false (2 ^ 23) (-87), zero, zero⟩, roundPos false 3 10 0,
        ⟨zero, zero, zero⟩, fin false 12582912 (-24)⟩ ⟨⟨zero, zero, zero⟩, one, one⟩
      = fin false 12582912 104 ∧
    force ⟨⟨fin false (2 ^ 23) (-87), zero, zero⟩, roundPos false 3 10 0,
        ⟨zero, zero, zero⟩, fin false 12582912 (-24)⟩ ⟨⟨zero, zero, zero⟩, one, one⟩
      = ⟨fin true 12582912 104, zero, zero⟩ ∧
    forceMagnitude ⟨⟨fin false (2 ^ 23) (-87), zero, zero⟩, roundPos false 3 10 0,
        ⟨zero, zero, zero⟩, fin false 12582912 (-24)⟩ ⟨⟨zero, zero, zero⟩, one, ofInt 2⟩
      = inf false ∧
    force ⟨⟨fin false (2 ^ 23) (-87), zero, zero⟩, roundPos false 3 10 0,
        ⟨zero, zero, zero⟩, fin false 12582912 (-24)⟩ ⟨⟨zero, zero, zero⟩, one, ofInt 2⟩
      = ⟨inf true, nan, nan⟩ ∧
    Vector3Length (force ⟨⟨fin false (2 ^ 23) (-87), zero, zero⟩, roundPos false 3 10 0,
        ⟨zero, zero, zero⟩, fin false 12582912 (-24)⟩ ⟨⟨zero, zero, zero⟩, one, ofInt 2⟩)
      = nan ∧
    fin false (2 ^ 23) (-98) = scaleExp 1 (fin false (2 ^ 23) (-99)) ∧
    forceMagnitude ⟨⟨one, zero, zero⟩, roundPos false 3 10 0, ⟨zero, zero, zero⟩,
        fin false (5 * 2 ^ 21) (-97)⟩ ⟨⟨zero, zero, zero⟩, one, fin false (2 ^ 23) (-99)⟩
      = fin false 1 (-149) ∧
    forceMagnitude ⟨⟨one, zero, zero⟩, roundPos false 3 10 0, ⟨zero, zero, zero⟩,
        fin false (5 * 2 ^ 21) (-97)⟩ ⟨⟨zero, zero, zero⟩, one, fin false (2 ^ 23) (-98)⟩
      = fin false 1 (-149) ∧
    force ⟨⟨one, zero, zero⟩, roundPos false 3 10 0, ⟨zero, zero, zero⟩,
        fin false (5 * 2 ^ 21) (-97)⟩ ⟨⟨zero, zero, zero⟩, one, fin false (2 ^ 23) (-99)⟩
      = ⟨fin true 1 (-149), zero, zero⟩ ∧
    force ⟨⟨one, zero, zero⟩, roundPos false 3 10 0, ⟨zero, zero, zero⟩,
        fin false (5 * 2 ^ 21) (-97)⟩ ⟨⟨zero, zero, zero⟩, one, fin false (2 ^ 23) (-98)⟩
      = ⟨fin true 1 (-149), zero, zero⟩ := by
  refine ⟨by decide!, by decide!, Vector3.ext (by decide!) (by decide!) (by decide!),
    by decide!, Vector3.ext (by decide!) (by decide!) (by decide!), by decide!, by decide!,
    by decide!, by decide!, Vector3.ext (by decide!) (by decide!) (by decide!),
    Vector3.ext (by decide!) (by decide!) (by decide!)⟩

/-- C5, as amended: in binary32, for particles `P`, `P2` of equal mass, with the
computed distance of `P` greater than zero and that of `P2` exactly twice it, the
scalar `forceMagnitude` that `ApplyGravity` computes for `P2` is exactly one
quarter of that for `P`, provided that for `P` the product `distance * distance`
is a nonzero finite number with exponent in [-148, 102] and `forceMagnitude` one
with exponent in [-146, 104] (no overflow, and no underflow once divided by 4). -/
theorem force_double_distance_binary32 (P P2 : Particle F32) (A : Sphere F32)
    (hm : P2.mass = P.mass)
    (hd : F32.lt F32.zero (distance P A) = true)
    (h2 : distance P2 A = scaleExp 1 (distance P A))
    (hdd : InRange (-148) 102 (F32.mul (distance P A) (distance P A)))
    (hf : InRange (-146) 104 (forceMagnitude P A)) :
    forceMagnitude P2 A = scaleExp (-2) (forceMagnitude P A) ∧
    (∃ q : ℚ, toRat (forceMagnitude P A) = some q ∧
      toRat (forceMagnitude P2 A) = some (1 / 4 * q)) ∧
    (ApplyGravity P A).velocity = Vector3Add P.velocity (force P A) ∧
    (ApplyGravity P2 A).velocity = Vector3Add P2.velocity (force P2 A) := by
  obtain ⟨s1, m1, e1, hde, hdm, hdl, hdh⟩ := hdd
  obtain ⟨s2, m2, e2, hfe, hfm, hfl, hfh⟩ := hf
  have a1 : F32.mul (scaleExp 1 (distance P A)) (distance P A) = fin s1 m1 (e1 + 1) :=
    mul_scale_left 1 hde hdm hdl (by omega) (by omega)
  have a2 : F32.mul (scaleExp 1 (distance P A)) (scaleExp 1 (distance P A))
      = fin s1 m1 (e1 + 1 + 1) :=
    mul_scale_right 1 a1 hdm (by omega) (by omega) (by omega)
  have a3 : forceMagnitude P2 A = fin s2 m2 (e2 - 2) := by
    unfold forceMagnitude at hfe ⊢
    rw [h2, a2, hm, show e1 + 1 + 1 = e1 + 2 by ring, ← scaleExp_fin 2 s1 e1 hdm, ← hde]
    exact div_scale_den 2 hfe hfm (by omega) (by omega) (by omega)
  have a4 : forceMagnitude P2 A = scaleExp (-2) (forceMagnitude P A) := by
    rw [a3, hfe, scaleExp_fin (-2) s2 e2 hfm]
    rfl
  have a5 : F32.lt F32.zero (distance P2 A) = true := by
    rw [h2]
    exact lt_zero_scaleExp 1 hd
  refine ⟨a4, ?_, ApplyGravity_velocity_of_guard P A hd,
    ApplyGravity_velocity_of_guard P2 A a5⟩
  rw [a4, hfe, scaleExp_fin (-2) s2 e2 hfm, toRat_scaleExp]
  refine ⟨(if s2 then -1 else 1) * (m2 : ℚ) * (2 : ℚ) ^ e2, rfl, ?_⟩
  simp only [toRat, Option.map_some', Option.some.injEq]
  norm_num

/-- C5, as amended, at particles (10,0,0) and (20,0,0) of mass `0.3f` with the
attractor of mass `1.0f` at the origin: the force magnitude goes from
`12884902 * 2^-32` to `12884902 * 2^-34`. -/
theorem force_double_distance_binary32_witness :
    forceMagnitude ⟨⟨ofInt 20, zero, zero⟩, roundPos false 3 10 0, ⟨zero, zero, zero⟩,
        roundPos false 3 10 0⟩ ⟨⟨zero, zero, zero⟩, one, one⟩
      = scaleExp (-2) (forceMagnitude ⟨⟨ofInt 10, zero, zero⟩, roundPos false 3 10 0,
          ⟨zero, zero, zero⟩, roundPos false 3 10 0⟩ ⟨⟨zero, zero, zero⟩, one, one⟩) ∧
    forceMagnitude ⟨⟨ofInt 20, zero, zero⟩, roundPos false 3 10 0, ⟨zero, zero, zero⟩,
        roundPos false 3 10 0⟩ ⟨⟨zero, zero, zero⟩, one, one⟩ = fin false 12884902 (-34) :=
  ⟨(force_double_distance_binary32
    ⟨⟨ofInt 10, zero, zero⟩, roundPos false 3 10 0, ⟨zero, zero, zero⟩, roundPos false 3 10 0⟩
    ⟨⟨ofInt 20, zero, zero⟩, roundPos false 3 10 0, ⟨zero, zero, zero⟩, roundPos false 3 10 0⟩
    ⟨⟨zero, zero, zero⟩, one, one⟩ rfl (by decide!) (by decide!)
    ⟨false, 13107200, -17, by decide!, by norm_num, by norm_num, by norm_num⟩
    ⟨false, 12884902, -32, by decide!, by norm_num, by norm_num, by norm_num⟩).1, by decide!⟩

/-- C5 as written fails.  With mass `0.3f` and the attractor of mass `1.0f` at the
origin, P = (2^-65, 0, 0) gets the force (-inf, NaN, NaN) while P' = (2^-64, 0, 0),
at twice the distance, gets the finite force (-0.3f * 2^128, 0, 0).  And between
P = (3, 4, 0), at distance 5, and P' = (10, 0, 0), at distance 10, the lengths of
the two forces are `12884903 * 2^-30` and `12884902 * 2^-32`, not in the ratio
4 to 1. -/
theorem double_distance_not_quarter_force :
    distance ⟨⟨fin false (2 ^ 23) (-87), zero, zero⟩, roundPos false 3 10 0,
        ⟨zero, zero, zero⟩, roundPos false 3 10 0⟩ ⟨⟨zero, zero, zero⟩, one, one⟩
      = scaleExp 1 (distance ⟨⟨fin false (2 ^ 23) (-88), zero, zero⟩, roundPos false 3 10 0,
        ⟨zero, zero, zero⟩, roundPos false 3 10 0⟩ ⟨⟨zero, zero, zero⟩, one, one⟩) ∧
    force ⟨⟨fin false (2 ^ 23) (-88), zero, zero⟩, roundPos false 3 10 0,
        ⟨zero, zero, zero⟩, roundPos false 3 10 0⟩ ⟨⟨zero, zero, zero⟩, one, one⟩
      = ⟨inf true, nan, nan⟩ ∧
    force ⟨⟨fin false (2 ^ 23) (-87), zero, zero⟩, roundPos false 3 10 0,
        ⟨zero, zero, zero⟩, roundPos false 3 10 0⟩ ⟨⟨zero, zero, zero⟩, one, one⟩
      = ⟨fin true 10066330 103, zero, zero⟩ ∧
    distance ⟨⟨ofInt 10, zero, zero⟩, roundPos false 3 10 0, ⟨zero, zero, zero⟩,
        roundPos false 3 10 0⟩ ⟨⟨zero, zero, zero⟩, one, one⟩
      = scaleExp 1 (distance ⟨⟨ofInt 3, ofInt 4, zero⟩, roundPos false 3 10 0,
        ⟨zero, zero, zero⟩, roundPos false 3 10 0⟩ ⟨⟨zero, zero, zero⟩, one, one⟩) ∧
    Vector3Length (force ⟨⟨ofInt 3, ofInt 4, zero⟩, roundPos false 3 10 0,
        ⟨zero, zero, zero⟩, roundPos false 3 10 0⟩ ⟨⟨zero, zero, zero⟩, one, one⟩)
      = fin false 12884903 (-30) ∧
    Vector3Length (force ⟨⟨ofInt 10, zero, zero⟩, roundPos false 3 10 0,
        ⟨zero, zero, zero⟩, roundPos false 3 10 0⟩ ⟨⟨zero, zero, zero⟩, one, one⟩)
      = fin false 12884902 (-32) := by
  refine ⟨by decide!, Vector3.ext (by decide!) (by decide!) (by decide!),
    Vector3.ext (by decide!) (by decide!) (by decide!), by decide!, by decide!, by decide!⟩

end Binary32

end BlackHole
